import Mathlib

/-!
Verification development for the pybricks-code firmware installation
subsystem and the excerpted UI sources.

The repository's UI sources (`FlashButton`, `InstallPybricksDialog`,
`alerts/sagas.ts`, editor, toolbar) are embedded directly from the source
files.  The firmware core itself (Transport, FirmwarePackage,
BootloaderProtocol, FlashSession, ProgressReporter, ConnectionCoordinator)
is not among the excerpted source files, so those components are modelled
from the specification text, as noted in the doc comment of each such
definition.
-/

namespace Pybricks

/-! ## Hub kinds (spec section 3: FirmwareMetadata.hubDeviceId) -/

/-- Hub device kinds as used by the firmware core.  Modelled from the spec:
the five hub types named in the sources (Move, City, Technic, Prime,
Essential). -/
inductive HubKind
  | moveHub
  | cityHub
  | technicHub
  | primeHub
  | essentialHub
deriving DecidableEq, Repr

/-! ## Chunking (spec sections 3 and 4.4: Chunk, Programming phase)

Modelled from the spec: "chunks are written strictly in increasing offset
order covering `[0, imageSize)`; the last chunk may be shorter than the
nominal chunk size". -/

/-- A chunk of the firmware image: an offset into the image and the size of
the payload written at that offset. -/
structure Chunk where
  offset : Nat
  size : Nat
deriving DecidableEq, Repr

/-- Worker for `chunkSeq`: produce the chunk list starting at `off` with
`rem` bytes remaining.  `fuel` bounds the recursion; `chunkSeq` passes
`fuel = rem`, which suffices whenever the chunk size is positive. -/
def chunksAux : Nat → Nat → Nat → Nat → List Chunk
  | 0, _, _, _ => []
  | fuel + 1, c, off, rem =>
    if rem = 0 then []
    else if rem ≤ c then [⟨off, rem⟩]
    else ⟨off, c⟩ :: chunksAux fuel c (off + c) (rem - c)

/-- The chunk sequence generated for programming an image of `n` bytes with
nominal chunk size `c`.  Modelled from the spec (sections 3 and 4.4). -/
def chunkSeq (n c : Nat) : List Chunk :=
  chunksAux n c 0 n

/-- Every chunk produced by `chunksAux` lies inside `[off, off + rem)`. -/
theorem chunksAux_offset_bounds :
    ∀ fuel c off rem, ∀ ch ∈ chunksAux fuel c off rem,
      off ≤ ch.offset ∧ ch.offset < off + rem := by
  intro fuel
  induction fuel with
  | zero => intro c off rem ch h; simp [chunksAux] at h
  | succ fuel ih =>
    intro c off rem ch h
    simp only [chunksAux] at h
    by_cases h0 : rem = 0
    · simp [h0] at h
    · simp only [h0, if_false] at h
      by_cases h1 : rem ≤ c
      · simp only [h1, if_true, List.mem_singleton] at h
        subst h
        refine ⟨le_refl _, ?_⟩
        dsimp only
        omega
      · simp only [h1, if_false, List.mem_cons] at h
        rcases h with h | h
        · subst h
          refine ⟨le_refl _, ?_⟩
          dsimp only
          omega
        · have := ih c (off + c) (rem - c) ch h
          constructor
          · omega
          · omega

/-- The sizes of the chunks produced by `chunksAux` sum to `rem` (provided
the fuel suffices and the chunk size is positive). -/
theorem chunksAux_size_sum :
    ∀ fuel c off rem, 0 < c → rem ≤ fuel →
      ((chunksAux fuel c off rem).map Chunk.size).sum = rem := by
  intro fuel
  induction fuel with
  | zero => intro c off rem hc hle; interval_cases rem; simp [chunksAux]
  | succ fuel ih =>
    intro c off rem hc hle
    simp only [chunksAux]
    by_cases h0 : rem = 0
    · simp [h0]
    · simp only [h0, if_false]
      by_cases h1 : rem ≤ c
      · simp [h1]
      · simp only [h1, if_false, List.map_cons, List.sum_cons]
        rw [ih c (off + c) (rem - c) hc (by omega)]
        omega

/-- Each chunk produced by `chunksAux` has positive size at most `c`
(provided the chunk size `c` is positive). -/
theorem chunksAux_size_le :
    ∀ fuel c off rem, 0 < c →
      ∀ ch ∈ chunksAux fuel c off rem, 0 < ch.size ∧ ch.size ≤ c := by
  intro fuel
  induction fuel with
  | zero => intro c off rem hc ch h; simp [chunksAux] at h
  | succ fuel ih =>
    intro c off rem hc ch h
    simp only [chunksAux] at h
    by_cases h0 : rem = 0
    · simp [h0] at h
    · simp only [h0, if_false] at h
      by_cases h1 : rem ≤ c
      · simp only [h1, if_true, List.mem_singleton] at h
        subst h
        refine ⟨?_, ?_⟩ <;> dsimp only <;> omega
      · simp only [h1, if_false, List.mem_cons] at h
        rcases h with h | h
        · subst h; exact ⟨hc, le_refl _⟩
        · exact ih c (off + c) (rem - c) hc ch h

/-- If `chunksAux` produces a nonempty list, its first chunk starts at the
requested offset (regardless of fuel). -/
theorem chunksAux_head_offset_eq :
    ∀ fuel c off rem b, (chunksAux fuel c off rem).head? = some b →
      b.offset = off := by
  intro fuel c off rem b h
  cases fuel with
  | zero => simp [chunksAux] at h
  | succ fuel =>
    simp only [chunksAux] at h
    by_cases h0 : rem = 0
    · simp [h0] at h
    · simp only [h0, if_false] at h
      by_cases h1 : rem ≤ c
      · simp only [h1, if_true, List.head?_cons, Option.some_inj] at h
        rw [← h]
      · simp only [h1, if_false, List.head?_cons, Option.some_inj] at h
        rw [← h]

/-- Adjacent chunks produced by `chunksAux` tile exactly: each chunk starts
where the previous one ended (no gaps, no overlaps). -/
theorem chunksAux_chain_adjacent :
    ∀ fuel c off rem,
      List.Chain' (fun a b => b.offset = a.offset + a.size)
        (chunksAux fuel c off rem) := by
  intro fuel
  induction fuel with
  | zero => intro c off rem; simp [chunksAux]
  | succ fuel ih =>
    intro c off rem
    simp only [chunksAux]
    by_cases h0 : rem = 0
    · simp [h0]
    · simp only [h0, if_false]
      by_cases h1 : rem ≤ c
      · simp [h1]
      · simp only [h1, if_false]
        refine List.chain'_cons'.mpr ⟨?_, ih c (off + c) (rem - c)⟩
        intro b hb
        have hsome : (chunksAux fuel c (off + c) (rem - c)).head? = some b :=
          Option.mem_def.mp hb
        have := chunksAux_head_offset_eq fuel c (off + c) (rem - c) b hsome
        dsimp only
        omega

/-- When the image is nonempty, the first chunk starts at the requested
offset. -/
theorem chunksAux_head_offset :
    ∀ fuel c off rem, 0 < rem → rem ≤ fuel →
      ((chunksAux fuel c off rem).head?.map Chunk.offset) = some off := by
  intro fuel
  induction fuel with
  | zero => intro c off rem h0 hle; omega
  | succ fuel _ =>
    intro c off rem h0 hle
    simp only [chunksAux]
    have h0' : ¬ rem = 0 := by omega
    simp only [h0', if_false]
    by_cases h1 : rem ≤ c
    · simp [h1]
    · simp [h1]

/-- When the chunk size is positive, offsets are strictly increasing along
the chunk sequence. -/
theorem chunksAux_chain_lt :
    ∀ fuel c off rem, 0 < c →
      List.Chain' (fun a b => a.offset < b.offset)
        (chunksAux fuel c off rem) := by
  intro fuel
  induction fuel with
  | zero => intro c off rem hc; simp [chunksAux]
  | succ fuel ih =>
    intro c off rem hc
    simp only [chunksAux]
    by_cases h0 : rem = 0
    · simp [h0]
    · simp only [h0, if_false]
      by_cases h1 : rem ≤ c
      · simp [h1]
      · simp only [h1, if_false]
        refine List.chain'_cons'.mpr ⟨?_, ih c (off + c) (rem - c) hc⟩
        intro b hb
        have hmem : b ∈ chunksAux fuel c (off + c) (rem - c) :=
          List.mem_of_mem_head? hb
        have := chunksAux_offset_bounds fuel c (off + c) (rem - c) b hmem
        dsimp only
        omega

/-- The chunk sequence is nonempty whenever `0 < rem ≤ fuel`. -/
theorem chunksAux_ne_nil :
    ∀ fuel c off rem, 0 < rem → rem ≤ fuel →
      chunksAux fuel c off rem ≠ [] := by
  intro fuel c off rem h0 hle
  intro hnil
  have := chunksAux_head_offset fuel c off rem h0 hle
  rw [hnil] at this
  simp at this

/-- The final chunk of `chunksAux` has size `rem % c` when that is nonzero,
and size `c` when `c` divides `rem` (given `0 < rem ≤ fuel` and `0 < c`). -/
theorem chunksAux_last_size :
    ∀ fuel c off rem, 0 < c → 0 < rem → rem ≤ fuel →
      ((chunksAux fuel c off rem).getLast?.map Chunk.size) =
        some (if rem % c = 0 then c else rem % c) := by
  intro fuel
  induction fuel with
  | zero => intro c off rem hc h0 hle; omega
  | succ fuel ih =>
    intro c off rem hc h0 hle
    simp only [chunksAux]
    have h0' : ¬ rem = 0 := by omega
    simp only [h0', if_false]
    by_cases h1 : rem ≤ c
    · simp only [h1, if_true, List.getLast?_singleton, Option.map_some']
      rcases Nat.lt_or_ge rem c with hlt | hge
      · have hmod : rem % c = rem := Nat.mod_eq_of_lt hlt
        rw [hmod, if_neg h0']
      · have heq : rem = c := le_antisymm h1 hge
        subst heq
        simp [Nat.mod_self]
    · simp only [h1, if_false]
      have hne : chunksAux fuel c (off + c) (rem - c) ≠ [] :=
        chunksAux_ne_nil fuel c (off + c) (rem - c) (by omega) (by omega)
      rcases List.exists_cons_of_ne_nil hne with ⟨r, rs, hr⟩
      rw [hr, List.getLast?_cons_cons, ← hr]
      rw [ih c (off + c) (rem - c) hc (by omega) (by omega)]
      have hmod : rem % c = (rem - c) % c :=
        Nat.mod_eq_sub_mod (by omega)
      rw [← hmod]

/-! ## Bootloader wire model (spec sections 4.3, 4.4, 7)

The FlashSession, BootloaderProtocol and Transport modules are not among
the excerpted source files; everything below is modelled from the spec. -/

/-- Error kinds of the firmware core.  Modelled from the spec (section 7). -/
inductive ErrorKind
  | connectionFault
  | protocolFault
  | hubTypeMismatch
  | checksumMismatch
  | eraseFault
  | transferFault
  | verificationFault
deriving DecidableEq, Repr

/-- Terminal outcome of a flash session.  Modelled from the spec
(section 4.4): `Completed`, `Failed(reason)` and `Cancelled` are the
absorbing states. -/
inductive Outcome
  | completed
  | failed (reason : ErrorKind)
  | cancelled
deriving DecidableEq, Repr

/-- Bootloader commands.  Modelled from the spec (section 4.3). -/
inductive Cmd
  | getInfo
  | eraseFlash
  | writeChunk (offset size : Nat)
  | getChecksum
  | startApplication
deriving DecidableEq, Repr

/-- Observable events of a session: wire commands, progress reports and the
surfaced refusal of a too-late cancellation request.  Modelled from the
spec (sections 4.4 and 6). -/
inductive Event
  | cmd (c : Cmd)
  | progress (p : Rat)
  | cancellationRefused
deriving DecidableEq, Repr

/-- Result of a single `WriteChunk` attempt on the wire.  Modelled from the
spec (sections 4.3 and 7): an acknowledgement, a transient transport
failure (retried), or a malformed/out-of-sequence response (fatal). -/
inductive WriteRes
  | ok
  | transientFail
  | protocolFault
deriving DecidableEq, Repr

/-- Point in the session at which a (single) cooperative cancellation
request is observed.  Modelled from the spec (sections 4.4 and 5): the flag
is checked on entering each phase and between chunk operations. -/
inductive CancelPoint
  | connecting
  | handshaking
  | validating
  | erasing
  | programming (offset : Nat)
  | verifying
  | rebooting
deriving DecidableEq, Repr

/-- Non-terminal states of the session state machine.  Modelled from the
spec (section 4.4). -/
inductive SessState
  | connecting
  | handshaking
  | validatingPackage
  | erasing
  | programming
  | verifying
  | rebooting
  | completed
deriving DecidableEq, Repr

/-- The environment a session runs against: the behaviour of the transport
and of the hub's bootloader.  Modelled from the spec: `connectResult a` is
the outcome of connection attempt `a` (section 4.4, Connecting);
`getInfoReply` is the hub type reported by `GetInfo`, `none` meaning a
malformed reply (section 4.3); `chunkSize` is the max packet size reported
by `GetInfo`; `eraseResult a` is the outcome of erase attempt `a`;
`writeResult off a` is the bootloader's response to attempt `a` of the
chunk at offset `off`; `checksumReply` is the checksum the hub reports
during verification. -/
structure WireEnv where
  connectResult : Nat → Bool
  getInfoReply : Option HubKind
  chunkSize : Nat
  eraseResult : Nat → Bool
  writeResult : Nat → Nat → WriteRes
  checksumReply : Nat

/-- The firmware package as consumed by a session: declared hub type, image
size and declared checksum.  Modelled from the spec (section 3). -/
structure Pkg where
  hubDeviceId : HubKind
  imageSize : Nat
  imageChecksum : Nat
deriving DecidableEq, Repr

/-- Connection succeeds within the fixed bound of 3 attempts.  Modelled
from the spec (section 4.4, Connecting). -/
def connectOK (env : WireEnv) : Bool :=
  env.connectResult 0 || env.connectResult 1 || env.connectResult 2

/-- One chunk's write with bounded retries: attempt `attempt` with
`remaining` attempts left.  Each attempt issues one `WriteChunk` command
on the wire.  An acknowledgement stops with `ok`; a malformed response
stops immediately (never retried); a transient failure retries until the
attempts are exhausted.  Modelled from the spec (sections 4.4 and 7). -/
def tryWrite (env : WireEnv) (off sz : Nat) : Nat → Nat → List Event × WriteRes
  | _, 0 => ([], WriteRes.transientFail)
  | attempt, remaining + 1 =>
    match env.writeResult off attempt with
    | WriteRes.ok => ([Event.cmd (Cmd.writeChunk off sz)], WriteRes.ok)
    | WriteRes.protocolFault =>
      ([Event.cmd (Cmd.writeChunk off sz)], WriteRes.protocolFault)
    | WriteRes.transientFail =>
      let r := tryWrite env off sz (attempt + 1) remaining
      (Event.cmd (Cmd.writeChunk off sz) :: r.1, r.2)

/-- The final status of a bounded-retry write, without the event trace. -/
def writeStatus (env : WireEnv) (off : Nat) : Nat → Nat → WriteRes
  | _, 0 => WriteRes.transientFail
  | attempt, remaining + 1 =>
    match env.writeResult off attempt with
    | WriteRes.ok => WriteRes.ok
    | WriteRes.protocolFault => WriteRes.protocolFault
    | WriteRes.transientFail => writeStatus env off (attempt + 1) remaining

/-- The Programming phase: write the chunks in order.  Before each chunk
the cancellation flag is observed: a matching request is honored only when
the chunk's offset has not passed the point of no safe return (at most 50%
of the image), otherwise it is refused and surfaced.  After each
acknowledged chunk a progress value `offset / imageSize` is reported.
Returns the events, `some` terminal outcome on early termination (`none`
when all chunks were acknowledged), and the number of acknowledged chunks.
Modelled from the spec (sections 4.4 and 5). -/
def programChunks (env : WireEnv) (cancel : Option CancelPoint) (n : Nat) :
    List Chunk → List Event × Option Outcome × Nat
  | [] => ([], none, 0)
  | ch :: rest =>
    if cancel = some (CancelPoint.programming ch.offset) ∧ 2 * ch.offset ≤ n then
      ([], some Outcome.cancelled, 0)
    else
      let refusedEvs : List Event :=
        if cancel = some (CancelPoint.programming ch.offset) then
          [Event.cancellationRefused]
        else []
      let w := tryWrite env ch.offset ch.size 0 3
      match w.2 with
      | WriteRes.ok =>
        let r := programChunks env cancel n rest
        (refusedEvs ++ w.1 ++
            Event.progress ((ch.offset : Rat) / (n : Rat)) :: r.1,
          r.2.1, r.2.2 + 1)
      | WriteRes.protocolFault =>
        (refusedEvs ++ w.1, some (Outcome.failed ErrorKind.protocolFault), 0)
      | WriteRes.transientFail =>
        (refusedEvs ++ w.1, some (Outcome.failed ErrorKind.transferFault), 0)

/-- Result of a session run: the states entered in order, the observable
events, the number of acknowledged chunks, and the terminal outcome.
Modelled from the spec (sections 4.4 and 6). -/
structure SessionResult where
  states : List SessState
  events : List Event
  acked : Nat
  outcome : Outcome
deriving DecidableEq, Repr

/-- The Verifying and Rebooting phases: request the checksum of the written
region and compare it with the package's declared checksum; on success
issue `StartApplication` (the disconnect that follows is the success path)
and report the final progress value `1.0`.  A cancellation request in these
phases is refused and surfaced.  Modelled from the spec (section 4.4). -/
def runVerify (pkg : Pkg) (env : WireEnv) (cancel : Option CancelPoint) :
    SessionResult :=
  let refuseV : List Event :=
    if cancel = some CancelPoint.verifying then [Event.cancellationRefused]
    else []
  if env.checksumReply ≠ pkg.imageChecksum then
    ⟨[SessState.verifying], refuseV ++ [Event.cmd Cmd.getChecksum], 0,
      Outcome.failed ErrorKind.verificationFault⟩
  else
    let refuseR : List Event :=
      if cancel = some CancelPoint.rebooting then [Event.cancellationRefused]
      else []
    ⟨[SessState.verifying, SessState.rebooting, SessState.completed],
      refuseV ++ Event.cmd Cmd.getChecksum :: refuseR ++
        [Event.cmd Cmd.startApplication, Event.progress 1],
      0, Outcome.completed⟩

/-- The Programming phase followed by verification.  Modelled from the spec
(section 4.4). -/
def runProgram (pkg : Pkg) (env : WireEnv) (cancel : Option CancelPoint) :
    SessionResult :=
  let chunks := chunkSeq pkg.imageSize env.chunkSize
  let r := programChunks env cancel pkg.imageSize chunks
  match r.2.1 with
  | some out => ⟨[SessState.programming], r.1, r.2.2, out⟩
  | none =>
    let v := runVerify pkg env cancel
    ⟨SessState.programming :: v.states, r.1 ++ v.events, r.2.2, v.outcome⟩

/-- The Erasing phase: a cancellation request here is honored; the erase is
reissued once as a whole on failure, then the session fails with the erase
error.  Modelled from the spec (section 4.4). -/
def runErase (pkg : Pkg) (env : WireEnv) (cancel : Option CancelPoint) :
    SessionResult :=
  if cancel = some CancelPoint.erasing then
    ⟨[SessState.erasing], [], 0, Outcome.cancelled⟩
  else if env.eraseResult 0 then
    let p := runProgram pkg env cancel
    ⟨SessState.erasing :: p.states, Event.cmd Cmd.eraseFlash :: p.events,
      p.acked, p.outcome⟩
  else if env.eraseResult 1 then
    let p := runProgram pkg env cancel
    ⟨SessState.erasing :: p.states,
      Event.cmd Cmd.eraseFlash :: Event.cmd Cmd.eraseFlash :: p.events,
      p.acked, p.outcome⟩
  else
    ⟨[SessState.erasing], [Event.cmd Cmd.eraseFlash, Event.cmd Cmd.eraseFlash],
      0, Outcome.failed ErrorKind.eraseFault⟩

/-- The ValidatingPackage phase: the package's declared hub type must match
the hub type the connected hub reported; on mismatch the session fails with
the hub-type mismatch error before any flash memory is touched.  Modelled
from the spec (sections 4.2 and 4.4). -/
def runValidate (pkg : Pkg) (env : WireEnv) (cancel : Option CancelPoint)
    (reported : HubKind) : SessionResult :=
  if cancel = some CancelPoint.validating then
    ⟨[SessState.validatingPackage], [], 0, Outcome.cancelled⟩
  else if reported ≠ pkg.hubDeviceId then
    ⟨[SessState.validatingPackage], [], 0,
      Outcome.failed ErrorKind.hubTypeMismatch⟩
  else
    let e := runErase pkg env cancel
    ⟨SessState.validatingPackage :: e.states, e.events, e.acked, e.outcome⟩

/-- The Handshaking phase: `GetInfo` populates the reported hub type; a
malformed reply fails with the protocol error without retry.  Modelled from
the spec (section 4.4). -/
def runHandshake (pkg : Pkg) (env : WireEnv) (cancel : Option CancelPoint) :
    SessionResult :=
  if cancel = some CancelPoint.handshaking then
    ⟨[SessState.handshaking], [], 0, Outcome.cancelled⟩
  else
    match env.getInfoReply with
    | none =>
      ⟨[SessState.handshaking], [Event.cmd Cmd.getInfo], 0,
        Outcome.failed ErrorKind.protocolFault⟩
    | some reported =>
      let v := runValidate pkg env cancel reported
      ⟨SessState.handshaking :: v.states, Event.cmd Cmd.getInfo :: v.events,
        v.acked, v.outcome⟩

/-- A whole flash session.  Modelled from the spec (section 4.4): the state
machine `Connecting → Handshaking → ValidatingPackage → Erasing →
Programming → Verifying → Rebooting → Completed`, with `Failed` and
`Cancelled` as absorbing terminal outcomes. -/
def runSession (pkg : Pkg) (env : WireEnv) (cancel : Option CancelPoint) :
    SessionResult :=
  if cancel = some CancelPoint.connecting then
    ⟨[SessState.connecting], [], 0, Outcome.cancelled⟩
  else if connectOK env = false then
    ⟨[SessState.connecting], [], 0, Outcome.failed ErrorKind.connectionFault⟩
  else
    let h := runHandshake pkg env cancel
    ⟨SessState.connecting :: h.states, h.events, h.acked, h.outcome⟩

/-- The progress values contained in an event trace, in order. -/
def progressList (evs : List Event) : List Rat :=
  evs.filterMap fun e =>
    match e with
    | Event.progress p => some p
    | _ => none

/-- The `WriteChunk` offsets contained in an event trace, in order. -/
def writeOffsets (evs : List Event) : List Nat :=
  evs.filterMap fun e =>
    match e with
    | Event.cmd (Cmd.writeChunk off _) => some off
    | _ => none

/-- Whether an event touches flash memory (a `WriteChunk` or `EraseFlash`
command on the wire). -/
def touchesFlash : Event → Bool
  | Event.cmd (Cmd.writeChunk _ _) => true
  | Event.cmd Cmd.eraseFlash => true
  | _ => false

/-- An all-acknowledging environment: connecting, erasing and every chunk
write succeed at the first attempt, the hub reports hub type `k`, max
packet size `c`, and checksum `chk` during verification. -/
def allOkEnv (k : HubKind) (chk c : Nat) : WireEnv :=
  ⟨fun _ => true, some k, c, fun _ => true, fun _ _ => WriteRes.ok, chk⟩

/-! ## Claim theorems: chunk coverage (C2) and hub-type validation (C1) -/

/-- Claim C2: for every image size N > 0 and chunk size C > 0, the chunk
sequence generated for programming has strictly increasing offsets, tiles
`[0, N)` exactly (each chunk starts where the previous ended, the first
starts at 0, and the sizes sum to N — no gaps and no overlaps), every
payload is at most C bytes, and the final chunk's size is `N % C` (or C
when `N % C = 0`); in particular for N = 1024 and C = 256 exactly four
`WriteChunk` calls are made, at offsets 0, 256, 512, 768. -/
theorem chunk_sequence_covers (n c : Nat) (hn : 0 < n) (hc : 0 < c) :
    List.Chain' (fun a b => a.offset < b.offset) (chunkSeq n c)
    ∧ List.Chain' (fun a b => b.offset = a.offset + a.size) (chunkSeq n c)
    ∧ ((chunkSeq n c).head?.map Chunk.offset) = some 0
    ∧ ((chunkSeq n c).map Chunk.size).sum = n
    ∧ (∀ ch ∈ chunkSeq n c, 0 < ch.size ∧ ch.size ≤ c)
    ∧ ((chunkSeq n c).getLast?.map Chunk.size) =
        some (if n % c = 0 then c else n % c)
    ∧ chunkSeq 1024 256 = [⟨0, 256⟩, ⟨256, 256⟩, ⟨512, 256⟩, ⟨768, 256⟩]
    ∧ writeOffsets (runSession ⟨HubKind.technicHub, 1024, 7⟩
        (allOkEnv HubKind.technicHub 7 256) none).events =
        [0, 256, 512, 768] := by
  refine ⟨chunksAux_chain_lt n c 0 n hc,
    chunksAux_chain_adjacent n c 0 n,
    chunksAux_head_offset n c 0 n hn (le_refl n),
    chunksAux_size_sum n c 0 n hc (le_refl n),
    chunksAux_size_le n c 0 n hc,
    chunksAux_last_size n c 0 n hc hn (le_refl n),
    by decide, by decide⟩

/-- Witness for `chunk_sequence_covers` at N = 1024, C = 256: the chunk
sizes sum to the image size. -/
theorem chunk_sequence_covers_witness :
    ((chunkSeq 1024 256).map Chunk.size).sum = 1024 :=
  (chunk_sequence_covers 1024 256 (by decide) (by decide)).2.2.2.1

/-- Claim C1: in every flash session in which the hub type reported by the
connected hub differs from the package's declared hub type, no `WriteChunk`
or `EraseFlash` command is ever issued on the wire (flash memory is
untouched); and whenever the session reaches ValidatingPackage (connection
succeeded and no cancellation was requested), it transitions from
ValidatingPackage directly to `Failed(HubTypeMismatch)`. -/
theorem hub_type_mismatch_aborts (pkg : Pkg) (env : WireEnv)
    (cancel : Option CancelPoint) (k : HubKind)
    (hinfo : env.getInfoReply = some k) (hne : k ≠ pkg.hubDeviceId) :
    (runSession pkg env cancel).events.filter touchesFlash = []
    ∧ (cancel = none → connectOK env = true →
        (runSession pkg env cancel).states =
          [SessState.connecting, SessState.handshaking,
            SessState.validatingPackage]
        ∧ (runSession pkg env cancel).outcome =
            Outcome.failed ErrorKind.hubTypeMismatch) := by
  constructor
  · simp only [runSession]
    split_ifs with h1 h2
    · rfl
    · rfl
    · simp only [runHandshake]
      split_ifs with h3
      · rfl
      · rw [hinfo]
        simp only [runValidate]
        split_ifs with h4
        · rfl
        · rfl
  · intro hcnone hconn
    subst hcnone
    simp [runSession, runHandshake, runValidate, hinfo, hconn, hne]

/-- Witness for `hub_type_mismatch_aborts`: a CityHub-reporting hub with a
TechnicHub package — the session reaches `Failed(HubTypeMismatch)` with no
flash-touching command issued. -/
theorem hub_type_mismatch_aborts_witness :
    (runSession ⟨HubKind.technicHub, 1024, 7⟩
        (allOkEnv HubKind.cityHub 7 256) none).events.filter touchesFlash = []
    ∧ ((none : Option CancelPoint) = none →
        connectOK (allOkEnv HubKind.cityHub 7 256) = true →
        (runSession ⟨HubKind.technicHub, 1024, 7⟩
          (allOkEnv HubKind.cityHub 7 256) none).states =
          [SessState.connecting, SessState.handshaking,
            SessState.validatingPackage]
        ∧ (runSession ⟨HubKind.technicHub, 1024, 7⟩
            (allOkEnv HubKind.cityHub 7 256) none).outcome =
            Outcome.failed ErrorKind.hubTypeMismatch) :=
  hub_type_mismatch_aborts ⟨HubKind.technicHub, 1024, 7⟩
    (allOkEnv HubKind.cityHub 7 256) none HubKind.cityHub (by decide)
    (by decide)

/-! ## Progress contract (C3) -/

/-- The function progressList distributes over append. -/
theorem progressList_append (xs ys : List Event) :
    progressList (xs ++ ys) = progressList xs ++ progressList ys :=
  List.filterMap_append xs ys _

/-- A conditional cancellation-refusal marker carries no progress value. -/
theorem progressList_ite_refused (P : Prop) [Decidable P] :
    progressList (if P then [Event.cancellationRefused] else []) = [] := by
  split <;> rfl

/-- Every event issued by `tryWrite` is the `WriteChunk` command for the
chunk being written. -/
theorem tryWrite_fst_all (env : WireEnv) (off sz : Nat) :
    ∀ remaining attempt, ∀ e ∈ (tryWrite env off sz attempt remaining).1,
      e = Event.cmd (Cmd.writeChunk off sz) := by
  intro remaining
  induction remaining with
  | zero => intro attempt e h; simp [tryWrite] at h
  | succ remaining ih =>
    intro attempt e h
    simp only [tryWrite] at h
    rcases hw : env.writeResult off attempt with _ | _ | _ <;>
      rw [hw] at h
    · simp only [List.mem_singleton] at h; exact h
    · simp only [List.mem_cons] at h
      rcases h with h | h
      · exact h
      · exact ih (attempt + 1) e h
    · simp only [List.mem_singleton] at h; exact h

/-- The events of tryWrite carry no progress value. -/
theorem progressList_tryWrite (env : WireEnv) (off sz attempt remaining : Nat) :
    progressList (tryWrite env off sz attempt remaining).1 = [] := by
  unfold progressList
  rw [List.filterMap_eq_nil_iff]
  intro e he
  have he' := tryWrite_fst_all env off sz remaining attempt e he
  subst he'
  rfl

/-- What `programChunks` computes: it acknowledges some leading run
`processed` of the chunk list, reports exactly one progress value
`offset / n` per acknowledged chunk, in order, counts the acknowledged
chunks, and never terminates the phase early with outcome `Completed`. -/
theorem programChunks_spec (env : WireEnv) (cancel : Option CancelPoint)
    (n : Nat) :
    ∀ chunks : List Chunk, ∃ processed rest,
      chunks = processed ++ rest
      ∧ progressList (programChunks env cancel n chunks).1 =
          processed.map (fun ch => (ch.offset : Rat) / (n : Rat))
      ∧ (programChunks env cancel n chunks).2.2 = processed.length
      ∧ (∀ out, (programChunks env cancel n chunks).2.1 = some out →
          out ≠ Outcome.completed) := by
  intro chunks
  induction chunks with
  | nil =>
    exact ⟨[], [], rfl, rfl, rfl, by simp [programChunks]⟩
  | cons ch rest ih =>
    obtain ⟨processed, rest', heq, hprog, hacked, hout⟩ := ih
    by_cases hcan :
        cancel = some (CancelPoint.programming ch.offset) ∧ 2 * ch.offset ≤ n
    · refine ⟨[], ch :: rest, rfl, ?_, ?_, ?_⟩ <;>
        simp [programChunks, hcan, progressList]
    · simp only [programChunks, if_neg hcan]
      rcases hw : (tryWrite env ch.offset ch.size 0 3).2 with _ | _ | _
      · -- acknowledged: the chunk joins the processed run
        refine ⟨ch :: processed, rest', by rw [heq, List.cons_append], ?_, ?_, ?_⟩
        · simp only [hw, progressList_append, progressList_ite_refused,
            progressList_tryWrite, List.nil_append, List.map_cons]
          simp only [progressList, List.filterMap_cons]
          rw [← progressList, hprog]
        · simp only [hw, hacked, List.length_cons]
        · intro out h
          simp only [hw] at h
          exact hout out h
      · -- all attempts exhausted: transfer failure
        refine ⟨[], ch :: rest, rfl, ?_, ?_, ?_⟩ <;>
          simp [hw, progressList_append, progressList_ite_refused,
            progressList_tryWrite]
      · -- malformed response: protocol failure
        refine ⟨[], ch :: rest, rfl, ?_, ?_, ?_⟩ <;>
          simp [hw, progressList_append, progressList_ite_refused,
            progressList_tryWrite]

/-- The progress contract of a session result: progress values are
monotonically non-decreasing, each lies in `[0, 1]`, the value `1` appears
exactly when the session completed, and at least one value was reported per
acknowledged chunk. -/
def ProgressOK (r : SessionResult) : Prop :=
  List.Chain' (· ≤ ·) (progressList r.events)
  ∧ (∀ p ∈ progressList r.events, 0 ≤ p ∧ p ≤ 1)
  ∧ ((1 : Rat) ∈ progressList r.events ↔ r.outcome = Outcome.completed)
  ∧ r.acked ≤ (progressList r.events).length

/-- A session result with no progress events, zero acknowledged chunks and
a non-`Completed` outcome satisfies the progress contract. -/
theorem ProgressOK_of_noProgress (r : SessionResult)
    (h1 : progressList r.events = []) (h2 : r.outcome ≠ Outcome.completed)
    (h3 : r.acked = 0) : ProgressOK r := by
  refine ⟨?_, ?_, ?_, ?_⟩ <;> simp [h1, h2, h3]

/-- Prepending progress-free events preserves the progress contract. -/
theorem ProgressOK_wrap (sts : List SessState) (pre : List Event)
    (r : SessionResult) (hpre : progressList pre = []) (h : ProgressOK r) :
    ProgressOK ⟨sts, pre ++ r.events, r.acked, r.outcome⟩ := by
  obtain ⟨hchain, hmem, hone, hlen⟩ := h
  refine ⟨?_, ?_, ?_, ?_⟩ <;>
    simp only [progressList_append, hpre, List.nil_append]
  · exact hchain
  · exact hmem
  · exact hone
  · exact hlen

/-- Verification with a matching checksum reports the final progress value
`1` and completes. -/
theorem runVerify_progress_ok (pkg : Pkg) (env : WireEnv)
    (cancel : Option CancelPoint) (h : env.checksumReply = pkg.imageChecksum) :
    progressList (runVerify pkg env cancel).events = [1]
    ∧ (runVerify pkg env cancel).outcome = Outcome.completed := by
  by_cases hv : cancel = some CancelPoint.verifying
  · simp [runVerify, h, hv, progressList]
  · by_cases hr : cancel = some CancelPoint.rebooting
    · simp [runVerify, h, hv, hr, progressList]
    · simp [runVerify, h, hv, hr, progressList]

/-- Verification with a mismatched checksum reports no progress value and
fails with the verification error. -/
theorem runVerify_progress_bad (pkg : Pkg) (env : WireEnv)
    (cancel : Option CancelPoint)
    (h : env.checksumReply ≠ pkg.imageChecksum) :
    progressList (runVerify pkg env cancel).events = []
    ∧ (runVerify pkg env cancel).outcome =
        Outcome.failed ErrorKind.verificationFault := by
  by_cases hv : cancel = some CancelPoint.verifying
  · simp [runVerify, h, hv, progressList]
  · simp [runVerify, h, hv, progressList]

/-- Dividing smaller naturals by the same natural gives smaller rationals
(also when the divisor is zero). -/
theorem rat_div_mono (a b n : Nat) (h : a ≤ b) :
    (a : Rat) / (n : Rat) ≤ (b : Rat) / (n : Rat) := by
  rw [div_eq_mul_inv, div_eq_mul_inv]
  refine mul_le_mul_of_nonneg_right ?_ (inv_nonneg.mpr (by positivity))
  exact_mod_cast h

/-- A quotient of naturals is nonnegative. -/
theorem rat_div_nonneg' (a n : Nat) : 0 ≤ (a : Rat) / (n : Rat) := by
  positivity

/-- A quotient of naturals with `a < n` is less than one. -/
theorem rat_div_lt_one (a n : Nat) (h : a < n) :
    (a : Rat) / (n : Rat) < 1 := by
  have hn : (0 : Rat) < (n : Rat) := by exact_mod_cast Nat.pos_of_ne_zero (by omega)
  rw [div_lt_one hn]
  exact_mod_cast h

/-- The Programming-and-verification part of a session satisfies the
progress contract. -/
theorem runProgram_ProgressOK (pkg : Pkg) (env : WireEnv)
    (cancel : Option CancelPoint) : ProgressOK (runProgram pkg env cancel) := by
  obtain ⟨processed, rest', heq, hprog, hacked, hout⟩ :=
    programChunks_spec env cancel pkg.imageSize
      (chunkSeq pkg.imageSize env.chunkSize)
  have hmemn : ∀ ch ∈ processed, ch.offset < pkg.imageSize := by
    intro ch hm
    have hmem : ch ∈ chunkSeq pkg.imageSize env.chunkSize := by
      rw [heq]; exact List.mem_append_left _ hm
    have := chunksAux_offset_bounds pkg.imageSize env.chunkSize 0
      pkg.imageSize ch hmem
    omega
  have hchain : List.Chain' (fun a b : Chunk => a.offset ≤ b.offset)
      processed := by
    have hadj := chunksAux_chain_adjacent pkg.imageSize env.chunkSize 0
      pkg.imageSize
    have hle : List.Chain' (fun a b : Chunk => a.offset ≤ b.offset)
        (chunkSeq pkg.imageSize env.chunkSize) :=
      hadj.imp (fun a b hab => by omega)
    rw [heq] at hle
    exact (List.chain'_append.mp hle).1
  have hmono : List.Chain' (· ≤ ·)
      (processed.map (fun ch => (ch.offset : Rat) / (pkg.imageSize : Rat))) := by
    rw [List.chain'_map]
    exact hchain.imp (fun a b hab => rat_div_mono _ _ _ hab)
  have hbound : ∀ p ∈ processed.map
      (fun ch => (ch.offset : Rat) / (pkg.imageSize : Rat)), 0 ≤ p ∧ p < 1 := by
    intro p hp
    rw [List.mem_map] at hp
    obtain ⟨ch, hm, hpe⟩ := hp
    subst hpe
    exact ⟨rat_div_nonneg' _ _, rat_div_lt_one _ _ (hmemn ch hm)⟩
  simp only [runProgram]
  rcases hres : (programChunks env cancel pkg.imageSize
      (chunkSeq pkg.imageSize env.chunkSize)).2.1 with _ | out
  · -- all chunks acknowledged; verification follows
    by_cases hchk : env.checksumReply = pkg.imageChecksum
    · obtain ⟨hv1, hv2⟩ := runVerify_progress_ok pkg env cancel hchk
      refine ⟨?_, ?_, ?_, ?_⟩ <;>
        simp only [progressList_append, hprog, hv1, hv2]
      · refine List.chain'_append.mpr ⟨hmono, List.chain'_singleton _, ?_⟩
        intro x hx y hy
        simp only [List.head?_cons, Option.mem_def, Option.some_inj] at hy
        subst hy
        have hxmem := List.mem_of_mem_getLast? hx
        exact le_of_lt (hbound x hxmem).2
      · intro p hp
        rcases List.mem_append.mp hp with hp | hp
        · exact ⟨(hbound p hp).1, le_of_lt (hbound p hp).2⟩
        · simp only [List.mem_singleton] at hp
          subst hp
          exact ⟨by norm_num, le_refl _⟩
      · exact iff_of_true (List.mem_append_right _ (List.mem_singleton.mpr rfl))
          trivial
      · rw [hacked, List.length_append, List.length_map]
        simp
    · obtain ⟨hv1, hv2⟩ := runVerify_progress_bad pkg env cancel hchk
      refine ⟨?_, ?_, ?_, ?_⟩ <;>
        simp only [progressList_append, hprog, hv1, hv2, List.append_nil]
      · exact hmono
      · intro p hp
        exact ⟨(hbound p hp).1, le_of_lt (hbound p hp).2⟩
      · refine iff_of_false ?_ (by simp)
        intro hmem
        exact absurd (hbound 1 hmem).2 (lt_irrefl 1)
      · rw [hacked, List.length_map]
  · -- the programming phase terminated early
    refine ⟨?_, ?_, ?_, ?_⟩ <;> simp only [hprog]
    · exact hmono
    · intro p hp
      exact ⟨(hbound p hp).1, le_of_lt (hbound p hp).2⟩
    · refine iff_of_false ?_ ?_
      · intro hmem
        exact absurd (hbound 1 hmem).2 (lt_irrefl 1)
      · exact hout out hres
    · rw [hacked, List.length_map]

/-- The Erasing phase onward satisfies the progress contract. -/
theorem runErase_ProgressOK (pkg : Pkg) (env : WireEnv)
    (cancel : Option CancelPoint) : ProgressOK (runErase pkg env cancel) := by
  unfold runErase
  split_ifs with h1 h2 h3
  · exact ProgressOK_of_noProgress _ rfl (by simp) rfl
  · exact ProgressOK_wrap _ [Event.cmd Cmd.eraseFlash] _ rfl
      (runProgram_ProgressOK pkg env cancel)
  · exact ProgressOK_wrap _ [Event.cmd Cmd.eraseFlash, Event.cmd Cmd.eraseFlash]
      _ rfl (runProgram_ProgressOK pkg env cancel)
  · exact ProgressOK_of_noProgress _ rfl (by simp) rfl

/-- The ValidatingPackage phase onward satisfies the progress contract. -/
theorem runValidate_ProgressOK (pkg : Pkg) (env : WireEnv)
    (cancel : Option CancelPoint) (reported : HubKind) :
    ProgressOK (runValidate pkg env cancel reported) := by
  unfold runValidate
  split_ifs with h1 h2
  · exact ProgressOK_of_noProgress _ rfl (by simp) rfl
  · exact ProgressOK_of_noProgress _ rfl (by simp) rfl
  · exact ProgressOK_wrap _ [] _ rfl (runErase_ProgressOK pkg env cancel)

/-- The Handshaking phase onward satisfies the progress contract. -/
theorem runHandshake_ProgressOK (pkg : Pkg) (env : WireEnv)
    (cancel : Option CancelPoint) : ProgressOK (runHandshake pkg env cancel) := by
  unfold runHandshake
  split_ifs with h1
  · exact ProgressOK_of_noProgress _ rfl (by simp) rfl
  · rcases hg : env.getInfoReply with _ | rep
    · exact ProgressOK_of_noProgress _ rfl (by simp) rfl
    · exact ProgressOK_wrap _ [Event.cmd Cmd.getInfo] _ rfl
        (runValidate_ProgressOK pkg env cancel rep)

/-- Every session satisfies the progress contract. -/
theorem runSession_ProgressOK (pkg : Pkg) (env : WireEnv)
    (cancel : Option CancelPoint) : ProgressOK (runSession pkg env cancel) := by
  unfold runSession
  split_ifs with h1 h2
  · exact ProgressOK_of_noProgress _ rfl (by simp) rfl
  · exact ProgressOK_of_noProgress _ rfl (by simp) rfl
  · exact ProgressOK_wrap _ [] _ rfl (runHandshake_ProgressOK pkg env cancel)

/-- Claim C3: in every session the sequence of emitted progress values is
monotonically non-decreasing, each value lies in `[0, 1]`, a value is
emitted at least once per acknowledged chunk, and the value `1.0` is
emitted exactly when the session reaches `Completed` — never in a session
that ends in `Failed` or `Cancelled`. -/
theorem progress_values_contract (pkg : Pkg) (env : WireEnv)
    (cancel : Option CancelPoint) :
    List.Chain' (· ≤ ·) (progressList (runSession pkg env cancel).events)
    ∧ (∀ p ∈ progressList (runSession pkg env cancel).events, 0 ≤ p ∧ p ≤ 1)
    ∧ ((1 : Rat) ∈ progressList (runSession pkg env cancel).events ↔
        (runSession pkg env cancel).outcome = Outcome.completed)
    ∧ (runSession pkg env cancel).acked ≤
        (progressList (runSession pkg env cancel).events).length :=
  runSession_ProgressOK pkg env cancel

/-! ## Retry policy (C5) -/

/-- The final status of `tryWrite` is `writeStatus`. -/
theorem tryWrite_snd (env : WireEnv) (off sz : Nat) :
    ∀ remaining attempt,
      (tryWrite env off sz attempt remaining).2 =
        writeStatus env off attempt remaining := by
  intro remaining
  induction remaining with
  | zero => intro attempt; rfl
  | succ remaining ih =>
    intro attempt
    simp only [tryWrite, writeStatus]
    rcases hw : env.writeResult off attempt with _ | _ | _ <;> simp [hw, ih]

/-- Two transient failures followed by an acknowledgement stay within the
retry bound of 3: the write succeeds. -/
theorem writeStatus_two_fails_then_ok (env : WireEnv) (off : Nat)
    (h0 : env.writeResult off 0 = WriteRes.transientFail)
    (h1 : env.writeResult off 1 = WriteRes.transientFail)
    (h2 : env.writeResult off 2 = WriteRes.ok) :
    writeStatus env off 0 3 = WriteRes.ok := by
  simp [writeStatus, h0, h1, h2]

/-- Three transient failures exhaust the retry bound. -/
theorem writeStatus_all_transient (env : WireEnv) (off : Nat)
    (h : ∀ a, a < 3 → env.writeResult off a = WriteRes.transientFail) :
    writeStatus env off 0 3 = WriteRes.transientFail := by
  have h0 := h 0 (by omega)
  have h1 := h 1 (by omega)
  have h2 := h 2 (by omega)
  simp [writeStatus, h0, h1, h2]

/-- A malformed response on the first attempt aborts the write at once. -/
theorem writeStatus_protocol_fault (env : WireEnv) (off : Nat)
    (h : env.writeResult off 0 = WriteRes.protocolFault) :
    writeStatus env off 0 3 = WriteRes.protocolFault := by
  simp [writeStatus, h]

/-- When every chunk's write eventually succeeds within the bound, the
programming phase runs to the end (no early termination). -/
theorem programChunks_all_ok (env : WireEnv) (n : Nat) :
    ∀ chunks : List Chunk,
      (∀ ch ∈ chunks, writeStatus env ch.offset 0 3 = WriteRes.ok) →
      (programChunks env none n chunks).2.1 = none := by
  intro chunks
  induction chunks with
  | nil => intro _; rfl
  | cons ch rest ih =>
    intro hok
    have hch : writeStatus env ch.offset 0 3 = WriteRes.ok :=
      hok ch (List.mem_cons_self ch rest)
    have hw : (tryWrite env ch.offset ch.size 0 3).2 = WriteRes.ok := by
      rw [tryWrite_snd]; exact hch
    simp only [programChunks, hw]
    rw [if_neg (by simp)]
    exact ih (fun c hc => hok c (List.mem_cons_of_mem ch hc))

/-- Programming a list that begins with a run of chunks whose writes all
succeed (and which the cancellation request does not target) behaves as the
run followed by the remainder: the run's events come first, the remainder
decides early termination, and the run's chunks are all acknowledged. -/
theorem programChunks_append (env : WireEnv) (cancel : Option CancelPoint)
    (n : Nat) :
    ∀ pre rest, (∀ ch ∈ pre, writeStatus env ch.offset 0 3 = WriteRes.ok) →
      (∀ ch ∈ pre, cancel ≠ some (CancelPoint.programming ch.offset)) →
      programChunks env cancel n (pre ++ rest) =
        ((programChunks env cancel n pre).1 ++
            (programChunks env cancel n rest).1,
          (programChunks env cancel n rest).2.1,
          pre.length + (programChunks env cancel n rest).2.2) := by
  intro pre
  induction pre with
  | nil =>
    intro rest _ _
    have h0 : programChunks env cancel n [] = ([], none, 0) := rfl
    rw [List.nil_append, h0]
    simp
  | cons ch pre' ih =>
    intro rest hok hcan
    have hch : writeStatus env ch.offset 0 3 = WriteRes.ok :=
      hok ch (List.mem_cons_self ch pre')
    have hw : (tryWrite env ch.offset ch.size 0 3).2 = WriteRes.ok := by
      rw [tryWrite_snd]; exact hch
    have hc : cancel ≠ some (CancelPoint.programming ch.offset) :=
      hcan ch (List.mem_cons_self ch pre')
    have hihs := ih rest (fun c hc' => hok c (List.mem_cons_of_mem ch hc'))
      (fun c hc' => hcan c (List.mem_cons_of_mem ch hc'))
    simp only [List.cons_append, programChunks, hw, if_neg (by tauto :
      ¬ (cancel = some (CancelPoint.programming ch.offset)
          ∧ 2 * ch.offset ≤ n)), if_neg hc, hihs]
    refine Prod.ext ?_ (Prod.ext ?_ ?_)
    · simp [hihs, List.append_assoc]
    · simp [hihs]
    · simp [hihs]
      omega

/-- A chunk whose write exhausts the retry bound terminates the programming
phase with the transfer error. -/
theorem programChunks_head_transient (env : WireEnv)
    (cancel : Option CancelPoint) (n : Nat) (ch : Chunk) (rest : List Chunk)
    (hnc : ¬ (cancel = some (CancelPoint.programming ch.offset)
        ∧ 2 * ch.offset ≤ n))
    (h : writeStatus env ch.offset 0 3 = WriteRes.transientFail) :
    (programChunks env cancel n (ch :: rest)).2.1 =
      some (Outcome.failed ErrorKind.transferFault) := by
  have hw : (tryWrite env ch.offset ch.size 0 3).2 = WriteRes.transientFail := by
    rw [tryWrite_snd]; exact h
  simp [programChunks, hnc, hw]

/-- A malformed response on the first attempt of a chunk terminates the
programming phase with the protocol error after exactly one `WriteChunk`
for that chunk: the write is never retried. -/
theorem programChunks_head_protocol (env : WireEnv)
    (cancel : Option CancelPoint) (n : Nat) (ch : Chunk) (rest : List Chunk)
    (hnc : ¬ (cancel = some (CancelPoint.programming ch.offset)
        ∧ 2 * ch.offset ≤ n))
    (h : env.writeResult ch.offset 0 = WriteRes.protocolFault) :
    (programChunks env cancel n (ch :: rest)).2.1 =
      some (Outcome.failed ErrorKind.protocolFault)
    ∧ (programChunks env cancel n (ch :: rest)).1 =
        (if cancel = some (CancelPoint.programming ch.offset) then
          [Event.cancellationRefused] else [])
        ++ [Event.cmd (Cmd.writeChunk ch.offset ch.size)] := by
  have hw : tryWrite env ch.offset ch.size 0 3 =
      ([Event.cmd (Cmd.writeChunk ch.offset ch.size)],
        WriteRes.protocolFault) := by
    simp [tryWrite, h]
  constructor <;> simp [programChunks, hnc, hw]

/-- Membership in `writeOffsets`: the offsets are exactly those of the
`WriteChunk` commands in the trace. -/
theorem mem_writeOffsets (o : Nat) (evs : List Event) :
    o ∈ writeOffsets evs ↔
      ∃ sz, Event.cmd (Cmd.writeChunk o sz) ∈ evs := by
  unfold writeOffsets
  rw [List.mem_filterMap]
  constructor
  · rintro ⟨e, he, hfe⟩
    rcases e with c | p | _
    · rcases c with _ | _ | ⟨off, sz⟩ | _ | _
      · exact absurd hfe (by simp)
      · exact absurd hfe (by simp)
      · have hoo : off = o := by simpa using hfe
        subst hoo
        exact ⟨sz, he⟩
      · exact absurd hfe (by simp)
      · exact absurd hfe (by simp)
    · exact absurd hfe (by simp)
    · exact absurd hfe (by simp)
  · rintro ⟨sz, he⟩
    exact ⟨_, he, rfl⟩

/-- An element of a conditional cancellation-refusal marker list is the
refusal marker. -/
theorem mem_ite_refused (P : Prop) [Decidable P] (e : Event)
    (h : e ∈ (if P then [Event.cancellationRefused] else [])) :
    e = Event.cancellationRefused := by
  split at h
  · simpa using h
  · simp at h

/-- Every `WriteChunk` command in the programming phase's event trace
writes at the offset of one of the chunks being programmed. -/
theorem programChunks_write_events (env : WireEnv)
    (cancel : Option CancelPoint) (n : Nat) :
    ∀ chunks o sz,
      Event.cmd (Cmd.writeChunk o sz) ∈ (programChunks env cancel n chunks).1 →
      ∃ ch ∈ chunks, o = ch.offset := by
  intro chunks
  induction chunks with
  | nil => intro o sz h; simp [programChunks] at h
  | cons ch rest ih =>
    intro o sz h
    by_cases hcan :
        cancel = some (CancelPoint.programming ch.offset) ∧ 2 * ch.offset ≤ n
    · simp [programChunks, hcan] at h
    · simp only [programChunks, if_neg hcan] at h
      rcases hw : (tryWrite env ch.offset ch.size 0 3).2 with _ | _ | _ <;>
        rw [hw] at h
      · rcases List.mem_append.mp h with h1 | h1
        · rcases List.mem_append.mp h1 with h2 | h2
          · exact absurd (mem_ite_refused _ _ h2) (by simp)
          · have := tryWrite_fst_all env ch.offset ch.size 3 0 _ h2
            simp only [Event.cmd.injEq, Cmd.writeChunk.injEq] at this
            exact ⟨ch, List.mem_cons_self ch rest, this.1⟩
        · rcases List.mem_cons.mp h1 with h3 | h3
          · exact absurd h3 (by simp)
          · rcases ih o sz h3 with ⟨c, hc, rfl⟩
            exact ⟨c, List.mem_cons_of_mem ch hc, rfl⟩
      · rcases List.mem_append.mp h with h1 | h1
        · exact absurd (mem_ite_refused _ _ h1) (by simp)
        · have := tryWrite_fst_all env ch.offset ch.size 3 0 _ h1
          simp only [Event.cmd.injEq, Cmd.writeChunk.injEq] at this
          exact ⟨ch, List.mem_cons_self ch rest, this.1⟩
      · rcases List.mem_append.mp h with h1 | h1
        · exact absurd (mem_ite_refused _ _ h1) (by simp)
        · have := tryWrite_fst_all env ch.offset ch.size 3 0 _ h1
          simp only [Event.cmd.injEq, Cmd.writeChunk.injEq] at this
          exact ⟨ch, List.mem_cons_self ch rest, this.1⟩

/-- In a chain of strictly increasing offsets, every chunk of the first
part has a smaller offset than the head of the second part. -/
theorem chain_lt_head :
    ∀ (l : List Chunk) (y : Chunk),
      List.Chain' (fun a b : Chunk => a.offset < b.offset) (y :: l) →
      ∀ x ∈ l, y.offset < x.offset := by
  intro l
  induction l with
  | nil => intro y _ x hx; simp at hx
  | cons z zs ih =>
    intro y h x hx
    have h1 : y.offset < z.offset := (List.chain'_cons.mp h).1
    have h2 := (List.chain'_cons.mp h).2
    rcases List.mem_cons.mp hx with rfl | hx
    · exact h1
    · exact lt_trans h1 (ih z h2 x hx)

/-- In a strictly increasing chunk list split as `pre ++ ch :: post`, every
chunk of `pre` has a smaller offset than `ch`. -/
theorem chain_lt_split (pre post : List Chunk) (ch : Chunk)
    (h : List.Chain' (fun a b : Chunk => a.offset < b.offset)
      (pre ++ ch :: post)) :
    ∀ x ∈ pre, x.offset < ch.offset := by
  induction pre with
  | nil => intro x hx; simp at hx
  | cons y ys ih =>
    intro x hx
    rw [List.cons_append] at h
    rcases List.mem_cons.mp hx with rfl | hx
    · exact chain_lt_head (ys ++ ch :: post) x h ch
        (List.mem_append_right ys (List.mem_cons_self ch post))
    · exact ih (List.Chain'.tail h) x hx

/-- A session in which connection, handshake and erase succeed, the
package's hub type matches, and the cancellation request (if any) targets
none of the pre-programming checkpoints, runs the Programming phase: its
events are `GetInfo`, `EraseFlash`, then the programming events, and its
outcome is the programming outcome. -/
theorem runSession_good (pkg : Pkg) (env : WireEnv)
    (cancel : Option CancelPoint)
    (hc1 : cancel ≠ some CancelPoint.connecting)
    (hconn : connectOK env = true)
    (hc2 : cancel ≠ some CancelPoint.handshaking)
    (hinfo : env.getInfoReply = some pkg.hubDeviceId)
    (hc3 : cancel ≠ some CancelPoint.validating)
    (hc4 : cancel ≠ some CancelPoint.erasing)
    (herase : env.eraseResult 0 = true) :
    runSession pkg env cancel =
      ⟨SessState.connecting :: SessState.handshaking ::
          SessState.validatingPackage :: SessState.erasing ::
          (runProgram pkg env cancel).states,
        Event.cmd Cmd.getInfo :: Event.cmd Cmd.eraseFlash ::
          (runProgram pkg env cancel).events,
        (runProgram pkg env cancel).acked,
        (runProgram pkg env cancel).outcome⟩ := by
  simp [runSession, runHandshake, runValidate, runErase, hc1, hconn, hc2,
    hinfo, hc3, hc4, herase]

/-- When the programming phase terminates early, its outcome is the
session outcome of `runProgram`. -/
theorem runProgram_outcome_some (pkg : Pkg) (env : WireEnv)
    (cancel : Option CancelPoint) (out : Outcome)
    (h : (programChunks env cancel pkg.imageSize
        (chunkSeq pkg.imageSize env.chunkSize)).2.1 = some out) :
    (runProgram pkg env cancel).outcome = out := by
  simp [runProgram, h]

/-- When every chunk is acknowledged, `runProgram`'s outcome is the
verification outcome. -/
theorem runProgram_outcome_none (pkg : Pkg) (env : WireEnv)
    (cancel : Option CancelPoint)
    (h : (programChunks env cancel pkg.imageSize
        (chunkSeq pkg.imageSize env.chunkSize)).2.1 = none) :
    (runProgram pkg env cancel).outcome = (runVerify pkg env cancel).outcome
    ∧ (runProgram pkg env cancel).events =
        (programChunks env cancel pkg.imageSize
          (chunkSeq pkg.imageSize env.chunkSize)).1 ++
          (runVerify pkg env cancel).events := by
  constructor <;> simp [runProgram, h]

/-- When the programming phase terminates early, `runProgram`'s events are
the programming events. -/
theorem runProgram_events_some (pkg : Pkg) (env : WireEnv)
    (cancel : Option CancelPoint) (out : Outcome)
    (h : (programChunks env cancel pkg.imageSize
        (chunkSeq pkg.imageSize env.chunkSize)).2.1 = some out) :
    (runProgram pkg env cancel).events =
      (programChunks env cancel pkg.imageSize
        (chunkSeq pkg.imageSize env.chunkSize)).1 := by
  simp [runProgram, h]

/-- Claim C5: for every chunk write, transient transport failures are
retried up to the bound of 3 attempts before the session terminates with
`Failed(TransferError)`; a write that fails twice and succeeds on the third
attempt stays within the bound and the session proceeds normally to
`Completed`; a malformed bootloader response is never retried — exactly one
`WriteChunk` is issued at that offset and the session aborts immediately
with `Failed(ProtocolError)`. -/
theorem chunk_write_retry_policy (pkg : Pkg) (env : WireEnv)
    (hconn : connectOK env = true)
    (hinfo : env.getInfoReply = some pkg.hubDeviceId)
    (herase : env.eraseResult 0 = true)
    (hchk : env.checksumReply = pkg.imageChecksum) :
    ((∀ ch ∈ chunkSeq pkg.imageSize env.chunkSize,
        writeStatus env ch.offset 0 3 = WriteRes.ok) →
      (∀ off, env.writeResult off 0 = WriteRes.transientFail →
        env.writeResult off 1 = WriteRes.transientFail →
        env.writeResult off 2 = WriteRes.ok →
        writeStatus env off 0 3 = WriteRes.ok)
      ∧ (runSession pkg env none).outcome = Outcome.completed)
    ∧ (∀ pre ch post,
        chunkSeq pkg.imageSize env.chunkSize = pre ++ ch :: post →
        (∀ c ∈ pre, writeStatus env c.offset 0 3 = WriteRes.ok) →
        (∀ a, a < 3 → env.writeResult ch.offset a = WriteRes.transientFail) →
        (runSession pkg env none).outcome =
          Outcome.failed ErrorKind.transferFault)
    ∧ (∀ pre ch post,
        chunkSeq pkg.imageSize env.chunkSize = pre ++ ch :: post →
        0 < env.chunkSize →
        (∀ c ∈ pre, writeStatus env c.offset 0 3 = WriteRes.ok) →
        env.writeResult ch.offset 0 = WriteRes.protocolFault →
        (runSession pkg env none).outcome =
          Outcome.failed ErrorKind.protocolFault
        ∧ (writeOffsets (runSession pkg env none).events).count ch.offset
            = 1) := by
  have hgood := runSession_good pkg env none (by simp) hconn (by simp) hinfo
    (by simp) (by simp) herase
  refine ⟨?_, ?_, ?_⟩
  · intro hall
    refine ⟨fun off h0 h1 h2 => writeStatus_two_fails_then_ok env off h0 h1 h2,
      ?_⟩
    have hnone := programChunks_all_ok env pkg.imageSize _ hall
    rw [hgood]
    show (runProgram pkg env none).outcome = Outcome.completed
    rw [(runProgram_outcome_none pkg env none hnone).1,
      (runVerify_progress_ok pkg env none hchk).2]
  · intro pre ch post hsplit hpre hbad
    have hnc : ¬ ((none : Option CancelPoint) =
        some (CancelPoint.programming ch.offset)
        ∧ 2 * ch.offset ≤ pkg.imageSize) := by simp
    have hfail := programChunks_head_transient env none pkg.imageSize ch post
      hnc (writeStatus_all_transient env ch.offset hbad)
    have happ := programChunks_append env none pkg.imageSize pre (ch :: post)
      hpre (by intro c _; simp)
    have houtcome : (programChunks env none pkg.imageSize
        (chunkSeq pkg.imageSize env.chunkSize)).2.1 =
        some (Outcome.failed ErrorKind.transferFault) := by
      rw [hsplit, happ]
      exact hfail
    rw [hgood]
    show (runProgram pkg env none).outcome = _
    exact runProgram_outcome_some pkg env none _ houtcome
  · intro pre ch post hsplit hcs hpre hbad
    have hnc : ¬ ((none : Option CancelPoint) =
        some (CancelPoint.programming ch.offset)
        ∧ 2 * ch.offset ≤ pkg.imageSize) := by simp
    obtain ⟨hfail, hevs⟩ := programChunks_head_protocol env none
      pkg.imageSize ch post hnc hbad
    have happ := programChunks_append env none pkg.imageSize pre (ch :: post)
      hpre (by intro c _; simp)
    have houtcome : (programChunks env none pkg.imageSize
        (chunkSeq pkg.imageSize env.chunkSize)).2.1 =
        some (Outcome.failed ErrorKind.protocolFault) := by
      rw [hsplit, happ]
      exact hfail
    constructor
    · rw [hgood]
      show (runProgram pkg env none).outcome = _
      exact runProgram_outcome_some pkg env none _ houtcome
    · -- exactly one WriteChunk at that offset in the whole session trace
      have hprec : ∀ x ∈ pre, x.offset < ch.offset := by
        have hchain := chunksAux_chain_lt pkg.imageSize env.chunkSize 0
          pkg.imageSize hcs
        rw [show chunksAux pkg.imageSize env.chunkSize 0 pkg.imageSize =
            chunkSeq pkg.imageSize env.chunkSize from rfl, hsplit] at hchain
        exact chain_lt_split pre post ch hchain
      rw [hgood]
      dsimp only
      rw [runProgram_events_some pkg env none _ houtcome, hsplit, happ]
      dsimp only
      rw [hevs, if_neg (by simp : ¬ (none : Option CancelPoint) =
        some (CancelPoint.programming ch.offset)), List.nil_append]
      have hw0 : writeOffsets (Event.cmd Cmd.getInfo ::
          Event.cmd Cmd.eraseFlash ::
          ((programChunks env none pkg.imageSize pre).1 ++
            [Event.cmd (Cmd.writeChunk ch.offset ch.size)])) =
          writeOffsets (programChunks env none pkg.imageSize pre).1 ++
            [ch.offset] := by
        simp [writeOffsets, List.filterMap_append]
      rw [hw0, List.count_append]
      have hzero : (writeOffsets
          (programChunks env none pkg.imageSize pre).1).count ch.offset
          = 0 := by
        rw [List.count_eq_zero]
        intro hmem
        rw [mem_writeOffsets] at hmem
        obtain ⟨sz, hsz⟩ := hmem
        obtain ⟨c, hc, hoc⟩ := programChunks_write_events env none
          pkg.imageSize pre ch.offset sz hsz
        exact absurd (hoc ▸ hprec c hc) (lt_irrefl _)
      rw [hzero]
      simp

/-- An environment in which the chunk at offset 0 fails transiently twice
and succeeds on the third attempt, and everything else succeeds at once. -/
def retryEnv : WireEnv :=
  ⟨fun _ => true, some HubKind.technicHub, 256, fun _ => true,
    fun off attempt =>
      if off = 0 ∧ attempt < 2 then WriteRes.transientFail else WriteRes.ok,
    7⟩

/-- Witness for `chunk_write_retry_policy`: with two transient failures and
a third-attempt success on the first chunk, the session completes. -/
theorem chunk_write_retry_policy_witness :
    (runSession ⟨HubKind.technicHub, 512, 7⟩ retryEnv none).outcome =
      Outcome.completed :=
  ((chunk_write_retry_policy ⟨HubKind.technicHub, 512, 7⟩ retryEnv
    (by decide) (by decide) (by decide) (by decide)).1 (by decide)).2

/-! ## Cancellation policy (C6) -/

/-- When every chunk write succeeds and the cancellation request is honored
at none of the chunks, the programming phase runs to the end. -/
theorem programChunks_all_ok_cancel (env : WireEnv) (n : Nat)
    (cancel : Option CancelPoint) :
    ∀ chunks, (∀ c ∈ chunks, writeStatus env c.offset 0 3 = WriteRes.ok) →
      (∀ c ∈ chunks, ¬ (cancel = some (CancelPoint.programming c.offset)
        ∧ 2 * c.offset ≤ n)) →
      (programChunks env cancel n chunks).2.1 = none := by
  intro chunks
  induction chunks with
  | nil => intro _ _; rfl
  | cons ch rest ih =>
    intro hok hcan
    have hw : (tryWrite env ch.offset ch.size 0 3).2 = WriteRes.ok := by
      rw [tryWrite_snd]; exact hok ch (List.mem_cons_self ch rest)
    simp only [programChunks,
      if_neg (hcan ch (List.mem_cons_self ch rest)), hw]
    exact ih (fun c hc => hok c (List.mem_cons_of_mem ch hc))
      (fun c hc => hcan c (List.mem_cons_of_mem ch hc))

/-- A cancellation request that may only be honored past the point of no
safe return never terminates the programming phase as `Cancelled`. -/
theorem programChunks_not_cancelled (env : WireEnv) (n : Nat)
    (cancel : Option CancelPoint)
    (hc : ∀ o, cancel = some (CancelPoint.programming o) → ¬ 2 * o ≤ n) :
    ∀ chunks out, (programChunks env cancel n chunks).2.1 = some out →
      out ≠ Outcome.cancelled := by
  intro chunks
  induction chunks with
  | nil => intro out h; simp [programChunks] at h
  | cons ch rest ih =>
    intro out h
    have hnc : ¬ (cancel = some (CancelPoint.programming ch.offset)
        ∧ 2 * ch.offset ≤ n) := by
      rintro ⟨he, hle⟩
      exact hc ch.offset he hle
    simp only [programChunks, if_neg hnc] at h
    rcases hw : (tryWrite env ch.offset ch.size 0 3).2 with _ | _ | _ <;>
      rw [hw] at h
    · exact ih out h
    · simp only [Option.some_inj] at h
      subst h
      simp
    · simp only [Option.some_inj] at h
      subst h
      simp

/-- Verification never ends in `Cancelled`. -/
theorem runVerify_not_cancelled (pkg : Pkg) (env : WireEnv)
    (cancel : Option CancelPoint) :
    (runVerify pkg env cancel).outcome ≠ Outcome.cancelled := by
  unfold runVerify
  split_ifs <;> simp

/-- The programming phase onward never ends in `Cancelled` when the
cancellation request may only be honored past the point of no safe
return. -/
theorem runProgram_not_cancelled (pkg : Pkg) (env : WireEnv)
    (cancel : Option CancelPoint)
    (hc : ∀ o, cancel = some (CancelPoint.programming o) →
      ¬ 2 * o ≤ pkg.imageSize) :
    (runProgram pkg env cancel).outcome ≠ Outcome.cancelled := by
  rcases hpc : (programChunks env cancel pkg.imageSize
      (chunkSeq pkg.imageSize env.chunkSize)).2.1 with _ | out
  · rw [(runProgram_outcome_none pkg env cancel hpc).1]
    exact runVerify_not_cancelled pkg env cancel
  · rw [runProgram_outcome_some pkg env cancel out hpc]
    exact programChunks_not_cancelled env pkg.imageSize cancel hc _ out hpc

/-- A session whose cancellation request targets no pre-programming
checkpoint and is past the point of no safe return never ends in
`Cancelled`: it continues to a `Completed` or `Failed` terminal state. -/
theorem runSession_refused_not_cancelled (pkg : Pkg) (env : WireEnv)
    (cancel : Option CancelPoint)
    (h1 : cancel ≠ some CancelPoint.connecting)
    (h2 : cancel ≠ some CancelPoint.handshaking)
    (h3 : cancel ≠ some CancelPoint.validating)
    (h4 : cancel ≠ some CancelPoint.erasing)
    (h5 : ∀ o, cancel = some (CancelPoint.programming o) →
      ¬ 2 * o ≤ pkg.imageSize) :
    (runSession pkg env cancel).outcome ≠ Outcome.cancelled := by
  simp only [runSession, runHandshake, runValidate, runErase,
    if_neg h1, if_neg h2, if_neg h3, if_neg h4]
  by_cases hconn : connectOK env = false
  · simp [hconn]
  · rw [if_neg hconn]
    dsimp only
    rcases hg : env.getInfoReply with _ | rep
    · simp
    · dsimp only
      by_cases hmm : rep ≠ pkg.hubDeviceId
      · simp [hmm]
      · rw [if_neg hmm]
        dsimp only
        by_cases he0 : env.eraseResult 0 = true
        · rw [if_pos he0]
          exact runProgram_not_cancelled pkg env cancel h5
        · rw [if_neg he0]
          by_cases he1 : env.eraseResult 1 = true
          · rw [if_pos he1]
            exact runProgram_not_cancelled pkg env cancel h5
          · rw [if_neg he1]
            simp

/-- A cancellation request targeting a chunk that has not passed the point
of no safe return is honored when that chunk is reached. -/
theorem programChunks_cancel_head (env : WireEnv) (n : Nat) (ch : Chunk)
    (rest : List Chunk) (h2 : 2 * ch.offset ≤ n) :
    (programChunks env (some (CancelPoint.programming ch.offset)) n
      (ch :: rest)).2.1 = some Outcome.cancelled := by
  simp [programChunks, h2]

/-- A cancellation request targeting a chunk past the point of no safe
return surfaces the refusal marker when that chunk is reached. -/
theorem programChunks_refused_head (env : WireEnv) (n : Nat) (ch : Chunk)
    (rest : List Chunk) (hm : ¬ 2 * ch.offset ≤ n) :
    Event.cancellationRefused ∈
      (programChunks env (some (CancelPoint.programming ch.offset)) n
        (ch :: rest)).1 := by
  have hnc : ¬ ((some (CancelPoint.programming ch.offset) : Option CancelPoint)
      = some (CancelPoint.programming ch.offset)
      ∧ 2 * ch.offset ≤ n) := by simp [hm]
  simp only [programChunks, if_neg hnc, if_pos rfl]
  rcases hw : (tryWrite env ch.offset ch.size 0 3).2 with _ | _ | _ <;>
    simp [hw, hm]

/-- Claim C6: a cancellation request received in any state from Connecting
through Erasing, or in early Programming (before the point of no safe
return, offset at most 50% of the image), drives the session to the
absorbing `Cancelled` state; a request received past the point of no safe
return or in Rebooting is refused — the session never ends `Cancelled`,
the refusal is surfaced as `CancellationRefused`, and the session continues
to a `Completed` or `Failed` terminal state (here: `Completed`). -/
theorem cancellation_policy (pkg : Pkg) (env : WireEnv)
    (hconn : connectOK env = true)
    (hinfo : env.getInfoReply = some pkg.hubDeviceId)
    (herase : env.eraseResult 0 = true)
    (hchk : env.checksumReply = pkg.imageChecksum) :
    (runSession pkg env (some CancelPoint.connecting)).outcome =
        Outcome.cancelled
    ∧ (runSession pkg env (some CancelPoint.handshaking)).outcome =
        Outcome.cancelled
    ∧ (runSession pkg env (some CancelPoint.validating)).outcome =
        Outcome.cancelled
    ∧ (runSession pkg env (some CancelPoint.erasing)).outcome =
        Outcome.cancelled
    ∧ (∀ pre ch post,
        chunkSeq pkg.imageSize env.chunkSize = pre ++ ch :: post →
        0 < env.chunkSize →
        (∀ c ∈ pre, writeStatus env c.offset 0 3 = WriteRes.ok) →
        2 * ch.offset ≤ pkg.imageSize →
        (runSession pkg env
          (some (CancelPoint.programming ch.offset))).outcome =
          Outcome.cancelled)
    ∧ (∀ off, ¬ 2 * off ≤ pkg.imageSize →
        (runSession pkg env
          (some (CancelPoint.programming off))).outcome ≠ Outcome.cancelled)
    ∧ (runSession pkg env (some CancelPoint.rebooting)).outcome ≠
        Outcome.cancelled
    ∧ (∀ pre ch post,
        chunkSeq pkg.imageSize env.chunkSize = pre ++ ch :: post →
        0 < env.chunkSize →
        (∀ c ∈ chunkSeq pkg.imageSize env.chunkSize,
          writeStatus env c.offset 0 3 = WriteRes.ok) →
        ¬ 2 * ch.offset ≤ pkg.imageSize →
        (runSession pkg env
          (some (CancelPoint.programming ch.offset))).outcome =
          Outcome.completed
        ∧ Event.cancellationRefused ∈
          (runSession pkg env
            (some (CancelPoint.programming ch.offset))).events)
    ∧ ((∀ c ∈ chunkSeq pkg.imageSize env.chunkSize,
          writeStatus env c.offset 0 3 = WriteRes.ok) →
        (runSession pkg env (some CancelPoint.rebooting)).outcome =
          Outcome.completed
        ∧ Event.cancellationRefused ∈
          (runSession pkg env (some CancelPoint.rebooting)).events) := by
  refine ⟨?_, ?_, ?_, ?_, ?_, ?_, ?_, ?_, ?_⟩
  · simp [runSession]
  · simp [runSession, runHandshake, hconn]
  · simp [runSession, runHandshake, runValidate, hconn, hinfo]
  · simp [runSession, runHandshake, runValidate, runErase, hconn, hinfo]
  · -- honored in early Programming
    intro pre ch post hsplit hcs hpre h2
    have hprec : ∀ x ∈ pre, x.offset < ch.offset := by
      have hchain := chunksAux_chain_lt pkg.imageSize env.chunkSize 0
        pkg.imageSize hcs
      rw [show chunksAux pkg.imageSize env.chunkSize 0 pkg.imageSize =
          chunkSeq pkg.imageSize env.chunkSize from rfl, hsplit] at hchain
      exact chain_lt_split pre post ch hchain
    have hcantarget : ∀ c ∈ pre,
        (some (CancelPoint.programming ch.offset) : Option CancelPoint) ≠
          some (CancelPoint.programming c.offset) := by
      intro c hc heq
      simp only [Option.some_inj, CancelPoint.programming.injEq] at heq
      exact absurd (heq ▸ hprec c hc) (lt_irrefl _)
    have happ := programChunks_append env
      (some (CancelPoint.programming ch.offset)) pkg.imageSize pre
      (ch :: post) hpre hcantarget
    have houtcome : (programChunks env
        (some (CancelPoint.programming ch.offset)) pkg.imageSize
        (chunkSeq pkg.imageSize env.chunkSize)).2.1 =
        some Outcome.cancelled := by
      rw [hsplit, happ]
      exact programChunks_cancel_head env pkg.imageSize ch post h2
    rw [runSession_good pkg env _ (by simp) hconn (by simp) hinfo (by simp)
      (by simp) herase]
    exact runProgram_outcome_some pkg env _ _ houtcome
  · -- refused past the point of no safe return: never Cancelled
    intro off hoff
    refine runSession_refused_not_cancelled pkg env _ (by simp) (by simp)
      (by simp) (by simp) ?_
    intro o heq
    have ho : off = o := by simpa using heq
    subst ho
    exact hoff
  · -- refused in Rebooting: never Cancelled
    exact runSession_refused_not_cancelled pkg env _ (by simp) (by simp)
      (by simp) (by simp) (by simp)
  · -- refused in late Programming: surfaces the refusal and completes
    intro pre ch post hsplit hcs hall hm
    have hnone : (programChunks env
        (some (CancelPoint.programming ch.offset)) pkg.imageSize
        (chunkSeq pkg.imageSize env.chunkSize)).2.1 = none := by
      refine programChunks_all_ok_cancel env pkg.imageSize _ _ hall ?_
      rintro c _ ⟨heq, hle⟩
      simp only [Option.some_inj, CancelPoint.programming.injEq] at heq
      rw [← heq] at hle
      exact hm hle
    have hgood := runSession_good pkg env
      (some (CancelPoint.programming ch.offset)) (by simp) hconn (by simp)
      hinfo (by simp) (by simp) herase
    constructor
    · rw [hgood]
      show (runProgram pkg env _).outcome = Outcome.completed
      rw [(runProgram_outcome_none pkg env _ hnone).1,
        (runVerify_progress_ok pkg env _ hchk).2]
    · have hprec : ∀ x ∈ pre, x.offset < ch.offset := by
        have hchain := chunksAux_chain_lt pkg.imageSize env.chunkSize 0
          pkg.imageSize hcs
        rw [show chunksAux pkg.imageSize env.chunkSize 0 pkg.imageSize =
            chunkSeq pkg.imageSize env.chunkSize from rfl, hsplit] at hchain
        exact chain_lt_split pre post ch hchain
      have hcantarget : ∀ c ∈ pre,
          (some (CancelPoint.programming ch.offset) : Option CancelPoint) ≠
            some (CancelPoint.programming c.offset) := by
        intro c hc heq
        simp only [Option.some_inj, CancelPoint.programming.injEq] at heq
        exact absurd (heq ▸ hprec c hc) (lt_irrefl _)
      have hpre : ∀ c ∈ pre, writeStatus env c.offset 0 3 = WriteRes.ok := by
        intro c hc
        refine hall c ?_
        rw [hsplit]
        exact List.mem_append_left _ hc
      have happ := programChunks_append env
        (some (CancelPoint.programming ch.offset)) pkg.imageSize pre
        (ch :: post) hpre hcantarget
      rw [hgood]
      show Event.cancellationRefused ∈ Event.cmd Cmd.getInfo ::
        Event.cmd Cmd.eraseFlash :: (runProgram pkg env _).events
      rw [(runProgram_outcome_none pkg env _ hnone).2, hsplit, happ]
      refine List.mem_cons_of_mem _ (List.mem_cons_of_mem _ ?_)
      refine List.mem_append_left _ ?_
      dsimp only
      refine List.mem_append_right _ ?_
      exact programChunks_refused_head env pkg.imageSize ch post hm
  · -- refused in Rebooting: surfaces the refusal and completes
    intro hall
    have hnone : (programChunks env (some CancelPoint.rebooting)
        pkg.imageSize (chunkSeq pkg.imageSize env.chunkSize)).2.1 =
        none := by
      refine programChunks_all_ok_cancel env pkg.imageSize _ _ hall ?_
      rintro c _ ⟨heq, _⟩
      simp at heq
    have hgood := runSession_good pkg env (some CancelPoint.rebooting)
      (by simp) hconn (by simp) hinfo (by simp) (by simp) herase
    constructor
    · rw [hgood]
      show (runProgram pkg env _).outcome = Outcome.completed
      rw [(runProgram_outcome_none pkg env _ hnone).1,
        (runVerify_progress_ok pkg env _ hchk).2]
    · rw [hgood]
      show Event.cancellationRefused ∈ Event.cmd Cmd.getInfo ::
        Event.cmd Cmd.eraseFlash :: (runProgram pkg env _).events
      rw [(runProgram_outcome_none pkg env _ hnone).2]
      refine List.mem_cons_of_mem _ (List.mem_cons_of_mem _ ?_)
      refine List.mem_append_right _ ?_
      simp [runVerify, hchk]

/-- Witness for `cancellation_policy`: with an all-acknowledging hub,
cancelling during Erasing yields `Cancelled`, while cancelling at the
chunk at offset 768 of a 1024-byte image (past 50%) is refused and the
session completes. -/
theorem cancellation_policy_witness :
    (runSession ⟨HubKind.technicHub, 1024, 7⟩
        (allOkEnv HubKind.technicHub 7 256)
        (some CancelPoint.erasing)).outcome = Outcome.cancelled
    ∧ (runSession ⟨HubKind.technicHub, 1024, 7⟩
        (allOkEnv HubKind.technicHub 7 256)
        (some (CancelPoint.programming 768))).outcome =
        Outcome.completed := by
  have h := cancellation_policy ⟨HubKind.technicHub, 1024, 7⟩
    (allOkEnv HubKind.technicHub 7 256) (by decide) (by decide) (by decide)
    (by decide)
  refine ⟨h.2.2.2.1, ?_⟩
  exact (h.2.2.2.2.2.2.2.1 [⟨0, 256⟩, ⟨256, 256⟩, ⟨512, 256⟩] ⟨768, 256⟩ []
    (by decide) (by decide) (by decide) (by decide)).1

/-! ## FirmwarePackage parsing (C4)

Modelled from the spec (sections 3 and 4.2): the FirmwarePackage module is
not among the excerpted source files. -/

/-- Firmware metadata.  Modelled from the spec (section 3). -/
structure FirmwareMetadata where
  hubDeviceId : HubKind
  firmwareVersion : String
  imageSize : Nat
  imageChecksum : Nat
deriving DecidableEq, Repr

/-- Modelled from the spec: the archive checksum is "a CRC/checksum
computed over `imageBytes`" (section 4.2); the concrete algorithm is not in
the excerpted sources, so it is modelled as a 32-bit sum over the bytes. -/
def checksum (bytes : List Nat) : Nat :=
  (bytes.foldl (· + ·) 0) % 4294967296

/-- Parse-time failures.  Modelled from the spec (section 4.2). -/
inductive ParseError
  | corruptArchive
  | missingMetadata
  | unsupportedSchemaVersion
  | checksumMismatch
deriving DecidableEq, Repr

/-- An input archive, abstracted as its content plus structural validity
flags.  Modelled from the spec (sections 4.2 and 6): a compressed container
holding a binary image, a metadata document and license text. -/
structure Archive where
  metadata : FirmwareMetadata
  imageBytes : List Nat
  licenseText : String
  wellFormed : Bool
  hasMetadata : Bool
  schemaSupported : Bool
deriving DecidableEq, Repr

/-- A parsed firmware package.  Modelled from the spec (section 3). -/
structure FirmwarePackage where
  metadata : FirmwareMetadata
  imageBytes : List Nat
  licenseText : String
deriving DecidableEq, Repr

/-- Parsing validates the archive, failing fast — a checksum mismatch is
reported at parse time, before any flash session exists.  Modelled from
the spec (section 4.2). -/
def parse (a : Archive) : Except ParseError FirmwarePackage :=
  if a.wellFormed = false then Except.error ParseError.corruptArchive
  else if a.hasMetadata = false then Except.error ParseError.missingMetadata
  else if a.schemaSupported = false then
    Except.error ParseError.unsupportedSchemaVersion
  else if checksum a.imageBytes ≠ a.metadata.imageChecksum then
    Except.error ParseError.checksumMismatch
  else Except.ok ⟨a.metadata, a.imageBytes, a.licenseText⟩

/-- Pure hub-type comparison used before any wire I/O.  Modelled from the
spec (section 4.2). -/
def hubTypeMatches (p : FirmwarePackage) (connectedHubType : HubKind) :
    Bool :=
  p.metadata.hubDeviceId == connectedHubType

/-- The flashing flow: parse first; only a successfully parsed package ever
reaches a flash session (and hence the wire).  Modelled from the spec
(sections 2 and 4.2). -/
def flashFlow (a : Archive) (env : WireEnv) (cancel : Option CancelPoint) :
    Except ParseError SessionResult :=
  match parse a with
  | Except.error e => Except.error e
  | Except.ok p =>
      Except.ok (runSession
        ⟨p.metadata.hubDeviceId, p.metadata.imageSize,
          p.metadata.imageChecksum⟩ env cancel)

/-- Claim C4: every archive accepted by `parse` yields a package whose
computed checksum equals the declared `imageChecksum` and for which
`hubTypeMatches` on the same hub type returns true; every structurally
valid archive whose declared checksum does not match the computed one
fails at parse time with `ChecksumMismatch`, before any flash session or
wire I/O begins. -/
theorem parse_checksum_contract (a : Archive) :
    (∀ p, parse a = Except.ok p →
      checksum p.imageBytes = p.metadata.imageChecksum
      ∧ hubTypeMatches p p.metadata.hubDeviceId = true)
    ∧ (a.wellFormed = true → a.hasMetadata = true →
        a.schemaSupported = true →
        checksum a.imageBytes ≠ a.metadata.imageChecksum →
        ∀ env cancel, flashFlow a env cancel =
          Except.error ParseError.checksumMismatch) := by
  constructor
  · intro p hp
    unfold parse at hp
    split_ifs at hp with h1 h2 h3 h4
    injection hp with hinj
    subst hinj
    exact ⟨not_not.mp h4, by simp [hubTypeMatches]⟩
  · intro hwf hmd hss hne env cancel
    unfold flashFlow parse
    rw [if_neg (by simp [hwf]), if_neg (by simp [hmd]),
      if_neg (by simp [hss]), if_pos hne]

/-- Witness for `parse_checksum_contract`: an archive declaring checksum
999 over bytes summing to 6 fails with `ChecksumMismatch` and no session
is ever run. -/
theorem parse_checksum_contract_witness :
    flashFlow ⟨⟨HubKind.cityHub, "v3.2", 3, 999⟩, [1, 2, 3], "MIT",
        true, true, true⟩ (allOkEnv HubKind.cityHub 999 256) none =
      Except.error ParseError.checksumMismatch :=
  (parse_checksum_contract _).2 (by decide) (by decide) (by decide)
    (by decide) (allOkEnv HubKind.cityHub 999 256) none

/-! ## ConnectionCoordinator and the flash button (C7) -/

/-- Bootloader connection states (`BootloaderConnectionState` from
`lwp3-bootloader/reducers`, not among the excerpted sources; the spec
(section 4.5) normalizes connection state to
`Disconnected | Connecting | Connected`). -/
inductive BootloaderConnectionState
  | disconnected
  | connecting
  | connected
deriving DecidableEq, Repr

/-- BLE connection states (`BleConnectionState` from `ble/reducers`, not
among the excerpted sources; same normalized enumeration). -/
inductive BleConnectionState
  | disconnected
  | connecting
  | connected
deriving DecidableEq, Repr

/-- The `enabled` condition of `FlashButton` (embedded from the source:
`enabled={bootloaderConnection === BootloaderConnectionState.Disconnected
&& bleConnection === BleConnectionState.Disconnected}`): the
flash-firmware action can only be initiated when both connections are
disconnected. -/
def flashButtonEnabled (bootloaderConnection : BootloaderConnectionState)
    (bleConnection : BleConnectionState) : Bool :=
  bootloaderConnection == BootloaderConnectionState.disconnected &&
    bleConnection == BleConnectionState.disconnected

/-- The coordinator's only failure.  Modelled from the spec
(section 4.5). -/
inductive CoordError
  | alreadyConnected
deriving DecidableEq, Repr

/-- One step of the ConnectionCoordinator: opening a new Transport while
one is active fails with `AlreadyConnected`; otherwise the transport
becomes the single open one.  The state is the list of open transports
(identified by numbers).  Modelled from the spec (section 4.5). -/
def openTransport (s : List Nat) (t : Nat) : Except CoordError (List Nat) :=
  match s with
  | [] => Except.ok [t]
  | _ :: _ => Except.error CoordError.alreadyConnected

/-- Closing releases the open transport (idempotent).  Modelled from the
spec (sections 4.1 and 4.5). -/
def closeTransport (_ : List Nat) : List Nat := []

/-- A caller-issued coordinator operation. -/
inductive CoordOp
  | openOp (t : Nat)
  | closeOp
deriving DecidableEq, Repr

/-- Apply one coordinator operation; a failed open leaves the state
unchanged. -/
def applyCoordOp (s : List Nat) : CoordOp → List Nat
  | CoordOp.openOp t =>
    match openTransport s t with
    | Except.ok s' => s'
    | Except.error _ => s
  | CoordOp.closeOp => closeTransport s

/-- Run a sequence of coordinator operations from the initial (no open
transport) state. -/
def runCoordOps (ops : List CoordOp) : List Nat :=
  ops.foldl applyCoordOp []

/-- Claim C7: at most one Transport is open system-wide at any time — any
sequence of open/close operations leaves at most one transport open, and
opening while one is active fails with `AlreadyConnected` unless the prior
one is closed first (after a close, an open succeeds); correspondingly the
flash-firmware button is enabled exactly when both the bootloader
connection and the BLE connection are `Disconnected`. -/
theorem single_transport_invariant :
    (∀ ops, (runCoordOps ops).length ≤ 1)
    ∧ (∀ s t, s ≠ [] →
        openTransport s t = Except.error CoordError.alreadyConnected)
    ∧ (∀ s t, openTransport (closeTransport s) t = Except.ok [t])
    ∧ (∀ b l, flashButtonEnabled b l = true ↔
        b = BootloaderConnectionState.disconnected
        ∧ l = BleConnectionState.disconnected) := by
  refine ⟨?_, ?_, ?_, ?_⟩
  · intro ops
    suffices h : ∀ s : List Nat, s.length ≤ 1 →
        (ops.foldl applyCoordOp s).length ≤ 1 by
      exact h [] (by simp)
    induction ops with
    | nil => intro s hs; simpa using hs
    | cons op rest ih =>
      intro s hs
      simp only [List.foldl_cons]
      refine ih _ ?_
      cases op with
      | openOp t =>
        cases s with
        | nil => simp [applyCoordOp, openTransport]
        | cons x xs => simpa [applyCoordOp, openTransport] using hs
      | closeOp => simp [applyCoordOp, closeTransport]
  · intro s t hs
    cases s with
    | nil => exact absurd rfl hs
    | cons x xs => rfl
  · intro s t
    rfl
  · intro b l
    constructor
    · intro h
      simpa [flashButtonEnabled] using h
    · rintro ⟨rfl, rfl⟩
      rfl

/-- Witness for `single_transport_invariant`: opening transport 1 while
transport 0 is open fails with `AlreadyConnected`, and after the failed
attempt at most one transport remains open. -/
theorem single_transport_invariant_witness :
    openTransport [0] 1 = Except.error CoordError.alreadyConnected
    ∧ (runCoordOps [CoordOp.openOp 0, CoordOp.openOp 1]).length ≤ 1 :=
  ⟨single_transport_invariant.2.1 [0] 1 (by decide),
    single_transport_invariant.1 [CoordOp.openOp 0, CoordOp.openOp 1]⟩

/-! ## InstallPybricksDialog: hub type from metadata (C10) and the accept
dispatch (C8), embedded from the source file `installPybricksDialog.tsx` -/

/-- Hub kinds of the hub picker (`Hub` from `components/hubPicker`, not
among the excerpted sources; the five values named in
`getHubTypeFromMetadata`). -/
inductive Hub
  | move
  | city
  | technic
  | prime
  | essential
deriving DecidableEq, Repr

/-- The code of HubType.MoveHub from the external firmware package; the
numeric values model the LWP3 hub-type identifiers. -/
def HubTypeMoveHub : Nat := 64

/-- The code of HubType.CityHub from the external firmware package. -/
def HubTypeCityHub : Nat := 65

/-- The code of HubType.TechnicHub from the external firmware package. -/
def HubTypeTechnicHub : Nat := 128

/-- The code of HubType.PrimeHub from the external firmware package. -/
def HubTypePrimeHub : Nat := 129

/-- The code of HubType.EssentialHub from the external firmware package. -/
def HubTypeEssentialHub : Nat := 131

/-- Firmware metadata of a custom firmware zip (`FirmwareMetadata` from
`@pybricks/firmware`, external package): the `device-id` and
`firmware-version` fields used by the dialog. -/
structure FwMetadata where
  deviceId : Nat
  firmwareVersion : String
deriving DecidableEq, Repr

/-- Embedded from the source (`getHubTypeFromMetadata`): translates the hub
type from firmware metadata to the local hub type; undefined metadata or an
unrecognized `device-id` falls through to the caller-supplied fallback. -/
def getHubTypeFromMetadata (metadata : Option FwMetadata) (fallback : Hub) :
    Hub :=
  match metadata with
  | none => fallback
  | some m =>
    if m.deviceId = HubTypeMoveHub then Hub.move
    else if m.deviceId = HubTypeCityHub then Hub.city
    else if m.deviceId = HubTypeTechnicHub then Hub.technic
    else if m.deviceId = HubTypePrimeHub then Hub.prime
    else if m.deviceId = HubTypeEssentialHub then Hub.essential
    else fallback

/-- Embedded from the source (`InstallPybricksDialog`): the dialog's
selected hub type — the metadata-derived type when a custom firmware is
requested, else the hub picked by the user. -/
def selectedHubType (isCustomFirmwareRequested : Bool)
    (customMetadata : Option FwMetadata) (hubType : Hub) : Hub :=
  if isCustomFirmwareRequested then
    getHubTypeFromMetadata customMetadata hubType
  else hubType

/-- Claim C10: for firmware metadata whose `device-id` is none of the five
known hub types, and for undefined metadata, `getHubTypeFromMetadata`
returns the caller-supplied fallback rather than failing — an unrecognized
`device-id` in a custom firmware package silently selects the user-picked
hub as the target. -/
theorem unknown_device_id_uses_fallback (m : FwMetadata) (fallback : Hub)
    (h1 : m.deviceId ≠ HubTypeMoveHub) (h2 : m.deviceId ≠ HubTypeCityHub)
    (h3 : m.deviceId ≠ HubTypeTechnicHub) (h4 : m.deviceId ≠ HubTypePrimeHub)
    (h5 : m.deviceId ≠ HubTypeEssentialHub) :
    getHubTypeFromMetadata (some m) fallback = fallback
    ∧ getHubTypeFromMetadata none fallback = fallback
    ∧ selectedHubType true (some m) fallback = fallback := by
  refine ⟨?_, rfl, ?_⟩ <;>
    simp [selectedHubType, getHubTypeFromMetadata, h1, h2, h3, h4, h5]

/-- Witness for `unknown_device_id_uses_fallback`: `device-id` 999 is
unrecognized, so the user-picked City hub is selected. -/
theorem unknown_device_id_uses_fallback_witness :
    getHubTypeFromMetadata (some ⟨999, "v3.2.0"⟩) Hub.city = Hub.city :=
  (unknown_device_id_uses_fallback ⟨999, "v3.2.0"⟩ Hub.city (by decide)
    (by decide) (by decide) (by decide) (by decide)).1

/-- Modelled from the spec: `validateHubName` is imported by the dialog
from the firmware module, which is not among the excerpted sources; the
spec (section 6) says the hub name is "validated externally for
length/charset".  Modelled as: the UTF-8 encoding fits in 16 bytes and
every character is printable ASCII. -/
def validateHubName (hubName : String) : Bool :=
  hubName.utf8ByteSize ≤ 16 &&
    hubName.toList.all (fun c => 0x20 ≤ c.toNat && c.toNat ≤ 0x7e)

/-- Input intents of the hub-name field (Blueprint `Intent`). -/
inductive Intent
  | NONE
  | DANGER
deriving DecidableEq, Repr

/-- Embedded from the source (`ConfigureOptionsPanel`): the hub-name input
is marked with the danger intent exactly when `validateHubName` fails —
this is display only. -/
def hubNameIntent (hubName : String) : Intent :=
  if validateHubName hubName then Intent.NONE else Intent.DANGER

/-- The payload of `firmwareInstallPybricksDialogAccept` as dispatched by
the dialog's final button. -/
structure AcceptAction where
  selectedHub : Hub
  includeFilePath : Option String
  hubName : String
deriving DecidableEq, Repr

/-- Embedded from the source (`InstallPybricksDialog`,
`finalButtonProps.onClick`): the final button dispatches the accept action
with the dialog's current `hubName` unconditionally — no validity check
guards the dispatch. -/
def installDialogFinalButtonClick (hubType : Hub)
    (isCustomFirmwareRequested : Bool) (customMetadata : Option FwMetadata)
    (includeFilePath : Option String) (hubName : String) : AcceptAction :=
  ⟨selectedHubType isCustomFirmwareRequested customMetadata hubType,
    includeFilePath, hubName⟩

/-- Counterexample to claim C8 as stated: a 20-character hub name fails
`validateHubName`, yet the dialog's final button still dispatches the
accept action carrying it — validation is not established at dispatch
time. -/
theorem hub_name_validated_counterexample :
    ¬ (∀ (hubType : Hub) (isCustomFirmwareRequested : Bool)
        (customMetadata : Option FwMetadata)
        (includeFilePath : Option String) (hubName : String),
        validateHubName ((installDialogFinalButtonClick hubType
          isCustomFirmwareRequested customMetadata includeFilePath
          hubName).hubName) = true) := by
  intro h
  exact absurd (h Hub.city false none none "aaaaaaaaaaaaaaaaaaaa")
    (by decide)

/-- Claim C8 as amended: the dialog's accept dispatch passes the current
hub name through unchanged and unguarded; `validateHubName` is computed
only to mark the input with the danger intent when the name is invalid. -/
theorem hub_name_dispatch_unguarded (hubType : Hub)
    (isCustomFirmwareRequested : Bool) (customMetadata : Option FwMetadata)
    (includeFilePath : Option String) (hubName : String) :
    (installDialogFinalButtonClick hubType isCustomFirmwareRequested
      customMetadata includeFilePath hubName).hubName = hubName
    ∧ (hubNameIntent hubName = Intent.DANGER ↔
        validateHubName hubName = false) := by
  refine ⟨rfl, ?_⟩
  unfold hubNameIntent
  by_cases h : validateHubName hubName <;> simp [h]

/-! ## Alert toasts (C9), embedded from the source file
`src/alerts/sagas.ts` -/

/-- An `alertsShowAlert` action: the alert domain, the specific alert, and
its props (already JSON-serialized, as `JSON.stringify` produces). -/
structure AlertAction where
  domain : String
  specific : String
  propsJson : String
deriving DecidableEq, Repr

/-- Embedded from the source (`handleShowAlert`): the toast key built from
domain, specific, and the JSON-serialized props. -/
def alertKey (a : AlertAction) : String :=
  a.domain ++ "." ++ a.specific ++ "." ++ a.propsJson

/-- The saga effects `handleShowAlert` issues on the toaster, in order. -/
inductive SagaEffect
  | dismissToast (key : String)
  | delayMs (ms : Nat)
  | showToast (key : String)
deriving DecidableEq, Repr

/-- Embedded from the source (`handleShowAlert`): if a toast with the same
key is already open it is dismissed and the handler waits 500 ms, then the
new toast is shown under the same key.  The toaster state is the list of
open toast keys; `dismiss(key)` removes the toasts with that key and
`show(props, key)` appends one.  (The saga's trailing wait for the user's
reaction and the `alertsDidShowAlert` put concern the alert's own action,
after the toast is shown, and are outside this model.) -/
def handleShowAlert (toasts : List String) (a : AlertAction) :
    List SagaEffect × List String :=
  let key := alertKey a
  let existing := toasts.filter (fun t => t == key)
  if existing.length > 0 then
    ([SagaEffect.dismissToast key, SagaEffect.delayMs 500,
        SagaEffect.showToast key],
      (toasts.filter (fun t => t != key)) ++ [key])
  else
    ([SagaEffect.showToast key], toasts ++ [key])

/-- The number of open toasts with key `k`. -/
def countKey (toasts : List String) (k : String) : Nat :=
  toasts.countP (fun t => t == k)

/-- Handle a sequence of `alertsShowAlert` actions starting from an empty
toaster. -/
def runAlerts (acts : List AlertAction) : List String :=
  acts.foldl (fun t a => (handleShowAlert t a).2) []

/-- After handling an alert, exactly one toast with its key is open. -/
theorem handleShowAlert_key_count (toasts : List String) (a : AlertAction) :
    countKey (handleShowAlert toasts a).2 (alertKey a) = 1 := by
  unfold handleShowAlert countKey
  by_cases h : (toasts.filter (fun t => t == alertKey a)).length > 0
  · rw [if_pos h]
    dsimp only
    rw [List.countP_append, List.countP_filter]
    have hz : (toasts.countP
        (fun t => (t == alertKey a) && (t != alertKey a))) = 0 := by
      rw [List.countP_eq_zero]
      intro t _
      by_cases ht : t == alertKey a <;> simp [ht, bne]
    rw [hz]
    simp [List.countP_cons]
  · rw [if_neg h]
    dsimp only
    rw [List.countP_append]
    have hz : toasts.countP (fun t => t == alertKey a) = 0 := by
      have := List.countP_eq_length_filter
        (l := toasts) (p := fun t => t == alertKey a)
      omega
    rw [hz]
    simp [List.countP_cons]

/-- Handling an alert does not increase the number of open toasts with any
other key. -/
theorem handleShowAlert_other_count (toasts : List String) (a : AlertAction)
    (k : String) (hk : k ≠ alertKey a) :
    countKey (handleShowAlert toasts a).2 k ≤ countKey toasts k := by
  unfold handleShowAlert countKey
  have hsingle : List.countP (fun t => t == k) [alertKey a] = 0 := by
    rw [List.countP_eq_zero]
    intro t ht
    simp only [List.mem_singleton] at ht
    subst ht
    simp only [beq_iff_eq]
    exact fun he => hk he.symm
  by_cases h : (toasts.filter (fun t => t == alertKey a)).length > 0
  · rw [if_pos h]
    dsimp only
    rw [List.countP_append, hsingle, List.countP_filter]
    refine Nat.le_trans (Nat.le_of_eq (Nat.add_zero _)) ?_
    refine List.countP_mono_left ?_
    intro t _ ht
    exact (Bool.and_elim_left ht)
  · rw [if_neg h]
    dsimp only
    rw [List.countP_append, hsingle]
    omega

/-- Claim C9: at most one toast with the same key is ever shown at once —
from an empty toaster, any sequence of handled `alertsShowAlert` actions
leaves at most one open toast per key; when a toast with the action's key
is already open, the handler dismisses it and waits 500 ms before showing
the new toast under the same key, and otherwise it shows the toast
directly. -/
theorem alerts_no_duplicate_toasts :
    (∀ acts k, countKey (runAlerts acts) k ≤ 1)
    ∧ (∀ toasts a, countKey (handleShowAlert toasts a).2 (alertKey a) = 1)
    ∧ (∀ toasts a, countKey toasts (alertKey a) > 0 →
        (handleShowAlert toasts a).1 =
          [SagaEffect.dismissToast (alertKey a), SagaEffect.delayMs 500,
            SagaEffect.showToast (alertKey a)])
    ∧ (∀ toasts a, countKey toasts (alertKey a) = 0 →
        (handleShowAlert toasts a).1 =
          [SagaEffect.showToast (alertKey a)]) := by
  refine ⟨?_, handleShowAlert_key_count, ?_, ?_⟩
  · intro acts
    suffices h : ∀ s : List String, (∀ k, countKey s k ≤ 1) →
        ∀ k, countKey (acts.foldl (fun t a => (handleShowAlert t a).2) s) k
          ≤ 1 by
      exact h [] (by intro k; simp [countKey])
    induction acts with
    | nil => intro s hs k; simpa using hs k
    | cons a rest ih =>
      intro s hs k
      simp only [List.foldl_cons]
      refine ih _ ?_ k
      intro k'
      by_cases hk : k' = alertKey a
      · subst hk
        exact Nat.le_of_eq (handleShowAlert_key_count s a)
      · exact Nat.le_trans (handleShowAlert_other_count s a k' hk) (hs k')
  · intro toasts a h
    unfold countKey at h
    rw [List.countP_eq_length_filter] at h
    unfold handleShowAlert
    rw [if_pos h]
  · intro toasts a h
    unfold countKey at h
    rw [List.countP_eq_length_filter] at h
    unfold handleShowAlert
    rw [if_neg (by omega)]

/-- Witness for `alerts_no_duplicate_toasts`: showing the same alert twice
dismisses the first toast, waits 500 ms, and leaves a single toast. -/
theorem alerts_no_duplicate_toasts_witness :
    countKey (runAlerts [⟨"alerts", "unexpectedError", "null"⟩,
        ⟨"alerts", "unexpectedError", "null"⟩])
      (alertKey ⟨"alerts", "unexpectedError", "null"⟩) ≤ 1
    ∧ (handleShowAlert [alertKey ⟨"alerts", "unexpectedError", "null"⟩]
        ⟨"alerts", "unexpectedError", "null"⟩).1 =
        [SagaEffect.dismissToast (alertKey ⟨"alerts", "unexpectedError", "null"⟩),
          SagaEffect.delayMs 500,
          SagaEffect.showToast (alertKey ⟨"alerts", "unexpectedError", "null"⟩)] :=
  ⟨alerts_no_duplicate_toasts.1 _ _,
    alerts_no_duplicate_toasts.2.2.1 _ _ (by decide)⟩
